import Mathlib

/-!
# GCT535 FM synthesizer (hw3, hw4): a shallow embedding of `Source/Synth.h`

Number model.  The C++ sources compute in `float` and `double`.  Here every sample, time,
phase and parameter is an element of an arbitrary linearly ordered field `R` and arithmetic
is exact: rounding and the `float`/`double` conversions are not modelled.  All definitions
are computable on `R = ℚ`; the theorems hold for every such `R`, in particular for `ℝ`.

The C math library is a parameter (`MathLib`): the theorems hold whatever function stands
for `std::sin`.

`FMVoice` (startNote, stopNote, getADSRCurve, getCurrentSample, renderNextBlock) is
textually the same in `hw3/Source/Synth.h` and `hw4/Source/Synth.h`; it is embedded once.
-/

set_option autoImplicit false
set_option linter.unusedVariables false
set_option linter.unusedSectionVars false
set_option linter.unnecessarySeqFocus false

variable {R : Type} [LinearOrderedField R]

/-! ## Library functions used by the sources -/

/-- The math functions and constants the sources call, kept abstract: `sin` is `std::sin`,
`pow2 x` is `std::pow (2.0, x)` and `pi` is `juce::MathConstants<double>::pi`
(hw4 also spells it as the literal `PI`). -/
structure MathLib (R : Type) where
  sin : R → R
  pow2 : R → R
  pi : R

/-- Modelled from the spec: `juce::MidiMessage::getMidiNoteInHertz` (JUCE library, not under
src/), `noteFrequency(note) = 440 · 2^((note-69)/12)`. -/
def getMidiNoteInHertz (m : MathLib R) (noteNumber : Int) : R :=
  440 * m.pow2 (((noteNumber : R) - 69) / 12)

/-! ## juce::AudioBuffer -/

/-- A `juce::AudioSampleBuffer`: one list of samples per channel. -/
structure AudioBuffer (R : Type) where
  channels : List (List R)
deriving DecidableEq

/-- The call `outputBuffer.getNumChannels()`. -/
def AudioBuffer.getNumChannels (b : AudioBuffer R) : Nat :=
  b.channels.length

/-- The call `getSample (channel, sampleIndex)`; a position outside the buffer reads as 0. -/
def AudioBuffer.getSample (b : AudioBuffer R) (channel sampleIndex : Nat) : R :=
  (b.channels.getD channel []).getD sampleIndex 0

/-- The call `addSample (destChannel, destSample, valueToAdd)`: adds to one sample.
A position outside the buffer (undefined behaviour in C++) is left alone. -/
def AudioBuffer.addSample (b : AudioBuffer R) (destChannel destSample : Nat) (valueToAdd : R) :
    AudioBuffer R :=
  ⟨b.channels.modify (fun c => c.modify (fun x => x + valueToAdd) destSample) destChannel⟩

/-- The loop `for (auto i = outputBuffer.getNumChannels(); --i >= 0;)
outputBuffer.addSample (i, startSample, currentSample);` with `i` the loop counter before
its decrement. -/
def AudioBuffer.addSampleAllChannels (b : AudioBuffer R) (i startSample : Nat)
    (currentSample : R) : AudioBuffer R :=
  match i with
  | 0 => b
  | j + 1 => (b.addSample j startSample currentSample).addSampleAllChannels j startSample
      currentSample

/-- Length of channel `ch` of a buffer (0 for a channel the buffer does not have). -/
def AudioBuffer.channelLength (b : AudioBuffer R) (ch : Nat) : Nat :=
  (b.channels.getD ch []).length

/-- A buffer of `numChannels` channels of `numSamples` zeros (a cleared buffer). -/
def AudioBuffer.zeros (numChannels numSamples : Nat) : AudioBuffer R :=
  ⟨List.replicate numChannels (List.replicate numSamples 0)⟩

/-! ## FMVoice (hw3 lines 23-235, hw4 lines 312-493) -/

/-- The eleven FM parameters that `FMSynthesizer` stores and passes to every
`renderNextBlock` call. -/
structure FMParams (R : Type) where
  carrierAmplitude : R
  carrierAttackTime : R
  carrierDecayTime : R
  carrierSustainLevel : R
  carrierReleaseTime : R
  modulatorAmplitude : R
  modulatorFreqRatio : R
  modulatorAttackTime : R
  modulatorDecayTime : R
  modulatorSustainLevel : R
  modulatorReleaseTime : R
deriving DecidableEq

/-- The default member initialisers of the eleven FM parameters of `FMSynthesizer` (hw3 lines
271-282, hw4 lines 539-550). -/
def FMParams.default : FMParams R :=
  { carrierAmplitude := 1, carrierAttackTime := 0, carrierDecayTime := 1 / 100,
    carrierSustainLevel := 1, carrierReleaseTime := 1 / 100, modulatorAmplitude := 0,
    modulatorFreqRatio := 1, modulatorAttackTime := 0, modulatorDecayTime := 1 / 100,
    modulatorSustainLevel := 1, modulatorReleaseTime := 1 / 100 }

/-- The state of an `FMVoice`: its seven private fields, and the two pieces of the
`juce::SynthesiserVoice` base class it touches: the sample rate read by `getSampleRate()`
and the note number cleared by `clearCurrentNote()` (-1 when no note is bound). -/
structure FMVoice (R : Type) where
  currentAngle : R
  angleDelta : R
  level : R
  tailOff : R
  currentTime : R
  currentCarrierLevel : R
  currentModulatorLevel : R
  sampleRate : R
  currentlyPlayingNote : Int
deriving DecidableEq

/-- The constructor `FMVoice()`: every field 0, no note bound, at the given sample rate. -/
def FMVoice.new (sampleRate : R) : FMVoice R :=
  { currentAngle := 0, angleDelta := 0, level := 0, tailOff := 0, currentTime := 0,
    currentCarrierLevel := 0, currentModulatorLevel := 0, sampleRate := sampleRate,
    currentlyPlayingNote := -1 }

/-- The base-class call `clearCurrentNote()`. -/
def FMVoice.clearCurrentNote (v : FMVoice R) : FMVoice R :=
  { v with currentlyPlayingNote := -1 }

/-- The method `FMVoice::startNote` (hw3 lines 32-42, hw4 lines 321-331). -/
def FMVoice.startNote (m : MathLib R) (v : FMVoice R) (midiNoteNumber : Int) (velocity : R) :
    FMVoice R :=
  let cyclesPerSecond := getMidiNoteInHertz m midiNoteNumber
  let cyclesPerSample := cyclesPerSecond / v.sampleRate
  { v with
    currentAngle := 0
    tailOff := 0
    level := velocity * (15 / 100)
    currentTime := 0
    angleDelta := cyclesPerSample * 2 * m.pi }

/-- The method `FMVoice::stopNote` (hw3 lines 44-58, hw4 lines 333-347). -/
def FMVoice.stopNote (v : FMVoice R) (allowTailOff : Bool) : FMVoice R :=
  if allowTailOff then
    if v.tailOff = 0 then { v with tailOff := 1, currentTime := 0 } else v
  else
    { v.clearCurrentNote with angleDelta := 0 }

/-- The method `FMVoice::getADSRCurve` (hw3 lines 65-124, hw4 lines 354-392): every branch
of the source returns a literal. -/
def FMVoice.getADSRCurve (v : FMVoice R) (attackTime decayTime sustainLevel releaseTime : R)
    (isRelease : Bool) (currentLevel : R) : R :=
  if !isRelease then
    if v.currentTime < attackTime ∧ attackTime > 0 then
      1
    else if v.currentTime > attackTime ∧ v.currentTime - attackTime < decayTime then
      1
    else
      1
  else
    if v.currentTime < releaseTime then
      0
    else
      0

/-- The method `FMVoice::getCurrentSample` (hw3 lines 128-165, hw4 lines 395-423): returns
the sample and the voice with its stored envelope levels updated. -/
def FMVoice.getCurrentSample (m : MathLib R) (v : FMVoice R) (p : FMParams R)
    (isRelease : Bool) : R × FMVoice R :=
  let carrierADSR : R := 1
  let modulatorADSR : R := 1
  let v1 := if !isRelease then
      { v with currentCarrierLevel := carrierADSR, currentModulatorLevel := modulatorADSR }
    else v
  let _carAmp := p.carrierAmplitude * carrierADSR
  let _modAmp := p.modulatorAmplitude * modulatorADSR
  (m.sin v1.currentAngle, v1)

/-- The tail-off loop of `renderNextBlock` (hw3 lines 182-206, hw4 lines 440-464);
`n` is the number of iterations `while (--numSamples >= 0)` still allows. -/
def FMVoice.tailOffLoop (m : MathLib R) (p : FMParams R) :
    Nat → FMVoice R → AudioBuffer R → Nat → FMVoice R × AudioBuffer R
  | 0, v, outputBuffer, _ => (v, outputBuffer)
  | n + 1, v, outputBuffer, startSample =>
    let r := v.getCurrentSample m p true
    let currentSample := r.1 * r.2.level
    let outputBuffer1 :=
      outputBuffer.addSampleAllChannels outputBuffer.getNumChannels startSample currentSample
    let v2 := { r.2 with
      currentAngle := r.2.currentAngle + r.2.angleDelta
      currentTime := r.2.currentTime + 1 / r.2.sampleRate }
    if p.carrierReleaseTime < v2.currentTime then
      ({ v2.clearCurrentNote with angleDelta := 0 }, outputBuffer1)
    else
      FMVoice.tailOffLoop m p n v2 outputBuffer1 (startSample + 1)

/-- The loop of `renderNextBlock` for a voice that is not in tail-off (hw3 lines 210-227,
hw4 lines 468-485). -/
def FMVoice.sustainLoop (m : MathLib R) (p : FMParams R) :
    Nat → FMVoice R → AudioBuffer R → Nat → FMVoice R × AudioBuffer R
  | 0, v, outputBuffer, _ => (v, outputBuffer)
  | n + 1, v, outputBuffer, startSample =>
    let r := v.getCurrentSample m p false
    let currentSample := r.1 * r.2.level
    let outputBuffer1 :=
      outputBuffer.addSampleAllChannels outputBuffer.getNumChannels startSample currentSample
    let v2 := { r.2 with
      currentAngle := r.2.currentAngle + r.2.angleDelta
      currentTime := r.2.currentTime + 1 / r.2.sampleRate }
    FMVoice.sustainLoop m p n v2 outputBuffer1 (startSample + 1)

/-- The method `FMVoice::renderNextBlock` with the eleven FM parameters (hw3 lines 169-230,
hw4 lines 427-488).  `numSamples` is the C++ `int`: a value below 1 gives no iteration. -/
def FMVoice.renderNextBlock (m : MathLib R) (v : FMVoice R) (outputBuffer : AudioBuffer R)
    (startSample : Nat) (numSamples : Int) (p : FMParams R) : FMVoice R × AudioBuffer R :=
  if v.angleDelta ≠ 0 then
    if v.tailOff > 0 then
      FMVoice.tailOffLoop m p numSamples.toNat v outputBuffer startSample
    else
      FMVoice.sustainLoop m p numSamples.toNat v outputBuffer startSample
  else
    (v, outputBuffer)

/-- A voice is idle when its phase increment is 0: the test `angleDelta != 0.0` that gates
all rendering in `renderNextBlock`.  A voice on which no note was started is idle, and
`stopNote` without tail-off and the end of a release make it idle again. -/
def FMVoice.isIdle (v : FMVoice R) : Prop :=
  v.angleDelta = 0

instance (v : FMVoice R) : Decidable v.isIdle :=
  inferInstanceAs (Decidable (v.angleDelta = 0))

/-- A run of consecutive `renderNextBlock` calls on one voice: the blocks have the sizes
listed, the first starts at `startSample` and each next one where the previous ended. -/
def FMVoice.renderBlocks (m : MathLib R) (p : FMParams R) :
    List Nat → FMVoice R → AudioBuffer R → Nat → FMVoice R × AudioBuffer R
  | [], v, outputBuffer, _ => (v, outputBuffer)
  | k :: ks, v, outputBuffer, startSample =>
    let r := v.renderNextBlock m outputBuffer startSample k p
    FMVoice.renderBlocks m p ks r.1 r.2 (startSample + k)

/-- A voice is sounding when a note was started and not yet released: its phase increment
is not 0 and its tail-off flag is 0, the value `startNote` stores. -/
def FMVoice.isSounding (v : FMVoice R) : Prop :=
  v.angleDelta ≠ 0 ∧ v.tailOff = 0

/-- A voice is releasing when `renderNextBlock` takes its tail-off loop: its phase increment
is not 0 and `tailOff > 0.0`. -/
def FMVoice.isReleasing (v : FMVoice R) : Prop :=
  v.angleDelta ≠ 0 ∧ v.tailOff > 0

/-- A run of `renderNextBlock` calls on one voice, each with its own start position, sample
count and FM parameters. -/
def FMVoice.renderCalls (m : MathLib R) :
    List (Nat × Int × FMParams R) → FMVoice R → AudioBuffer R → FMVoice R × AudioBuffer R
  | [], v, outputBuffer => (v, outputBuffer)
  | c :: cs, v, outputBuffer =>
    let r := v.renderNextBlock m outputBuffer c.1 c.2.1 c.2.2
    FMVoice.renderCalls m cs r.1 r.2

/-! ## DelayLine and Effect (hw4 lines 15-300) -/

/-- The class `DelayLine<Type>`: a `std::vector` of samples. -/
structure DelayLine (R : Type) where
  rawData : List R
deriving DecidableEq

/-- The method `DelayLine::clear`: fills the vector with zeros. -/
def DelayLine.clear (d : DelayLine R) : DelayLine R :=
  ⟨d.rawData.map (fun _ => 0)⟩

/-- The method `DelayLine::size`. -/
def DelayLine.size (d : DelayLine R) : Nat :=
  d.rawData.length

/-- The method `DelayLine::resize`, that is `std::vector::resize`: truncates, or appends
zeros. -/
def DelayLine.resize (d : DelayLine R) (newValue : Nat) : DelayLine R :=
  ⟨d.rawData.take newValue ++ List.replicate (newValue - d.rawData.length) 0⟩

/-- The method `DelayLine::push`: stores at the given index; an index outside the vector
(undefined behaviour in C++) stores nothing. -/
def DelayLine.push (d : DelayLine R) (writePointer : Nat) (valueToAdd : R) : DelayLine R :=
  ⟨d.rawData.set writePointer valueToAdd⟩

/-- The private state of `Effect<Type, maxNumChannels = 2>` (hw4 lines 271-299).  The two
`std::array`s and the two C arrays are lists, of length 2 in every constructed effect. -/
structure Effect (R : Type) where
  delayLines : List (DelayLine R)
  delayTimes : List R
  feedback : R
  wetDry : R
  sampleRate : R
  maxDelayTime : R
  maxDelaySample : R
  LFORate : R
  LFODepth : R
  LFOPhase : List R
  LFOPhaseIncrement : R
  FXType : String
  readPointer : Nat
  staticReadPointer : Nat
  variableReadPointer : Nat
  writePointer : List Nat
deriving DecidableEq

/-- The method `Effect::getNumChannels`. -/
def Effect.getNumChannels (fx : Effect R) : Nat :=
  fx.delayLines.length

/-- The method `Effect::reset` (hw4 lines 70-77), as a loop over `ch`. -/
def Effect.resetLoop : Nat → Nat → Effect R → Effect R
  | 0, _, fx => fx
  | n + 1, ch, fx =>
    Effect.resetLoop n (ch + 1)
      { fx with
        delayLines := fx.delayLines.modify (fun d => d.clear) ch
        writePointer := fx.writePointer.set ch 0 }

/-- The method `Effect::reset` (hw4 lines 70-77). -/
def Effect.reset (fx : Effect R) : Effect R :=
  Effect.resetLoop fx.getNumChannels 0 fx

/-- The method `Effect::updateDelayLineSize` (hw4 lines 282-287). -/
def Effect.updateDelayLineSize [FloorRing R] (fx : Effect R) : Effect R :=
  let delayLineSizeSamples : Nat := ⌈fx.maxDelayTime * fx.sampleRate⌉₊
  { fx with delayLines := fx.delayLines.map (fun dline => dline.resize delayLineSizeSamples) }

/-- The method `Effect::prepare` (hw4 lines 63-68); of the `ProcessSpec` only the sample
rate is read. -/
def Effect.prepare [FloorRing R] (fx : Effect R) (specSampleRate : R) : Effect R :=
  Effect.updateDelayLineSize { fx with sampleRate := specSampleRate }

/-- The method `Effect::setSampleRate` (hw4 lines 84-89). -/
def Effect.setSampleRate (m : MathLib R) (fx : Effect R) (newValue : R) : Effect R :=
  { fx with
    sampleRate := newValue
    maxDelaySample := newValue * fx.maxDelayTime
    LFOPhaseIncrement := 2 * m.pi * fx.LFORate / newValue }

/-- The method `Effect::setMaxDelayTime` (hw4 lines 91-97). -/
def Effect.setMaxDelayTime [FloorRing R] (fx : Effect R) (newValue : R) : Effect R :=
  let fx1 := Effect.updateDelayLineSize { fx with maxDelayTime := newValue }
  { fx1 with maxDelaySample := fx1.sampleRate * fx1.maxDelayTime }

/-- The method `Effect::setFeedback` (hw4 lines 99-103). -/
def Effect.setFeedback (fx : Effect R) (newValue : R) : Effect R :=
  { fx with feedback := newValue }

/-- The method `Effect::setWetDry` (hw4 lines 105-109). -/
def Effect.setWetDry (fx : Effect R) (newValue : R) : Effect R :=
  { fx with wetDry := newValue }

/-- The method `Effect::setDelayTime` (hw4 lines 111-121). -/
def Effect.setDelayTime (fx : Effect R) (channel : Nat) (newValue : R) : Effect R :=
  if channel ≥ fx.getNumChannels then fx
  else { fx with delayTimes := fx.delayTimes.set channel newValue }

/-- The loop of `Effect::setDelayTimes` (hw4 lines 125-129). -/
def Effect.setDelayTimesLoop (newValue : R) : Nat → Nat → Effect R → Effect R
  | 0, _, fx => fx
  | n + 1, ch, fx =>
    Effect.setDelayTimesLoop newValue n (ch + 1)
      { fx with delayTimes := fx.delayTimes.set ch newValue }

/-- The method `Effect::setDelayTimes` (hw4 lines 123-130). -/
def Effect.setDelayTimes (fx : Effect R) (newValue : R) : Effect R :=
  Effect.setDelayTimesLoop newValue fx.getNumChannels 0 fx

/-- The method `Effect::setLFORate` (hw4 lines 132-136). -/
def Effect.setLFORate (m : MathLib R) (fx : Effect R) (newValue : R) : Effect R :=
  { fx with
    LFORate := newValue
    LFOPhaseIncrement := 2 * m.pi * newValue / fx.sampleRate }

/-- The method `Effect::setLFODepth` (hw4 lines 138-141). -/
def Effect.setLFODepth (fx : Effect R) (newValue : R) : Effect R :=
  { fx with LFODepth := newValue }

/-- The method `Effect::setFXType` (hw4 lines 143-147). -/
def Effect.setFXType (fx : Effect R) (newValue : String) : Effect R :=
  { fx.reset with FXType := newValue }

/-- The constructor `Effect()` (hw4 lines 53-61): the default member initialisers (hw4 lines
272-299) followed by the six setter calls.  The members the source leaves uninitialised
(`delayTimes`, the three read pointers) start at 0. -/
def Effect.new [FloorRing R] (m : MathLib R) : Effect R :=
  let fx0 : Effect R :=
    { delayLines := [⟨[]⟩, ⟨[]⟩], delayTimes := [0, 0], feedback := 0, wetDry := 0,
      sampleRate := 48000, maxDelayTime := 2, maxDelaySample := 48000 * 2, LFORate := 0,
      LFODepth := 0, LFOPhase := [0, 0], LFOPhaseIncrement := 0, FXType := "None",
      readPointer := 0, staticReadPointer := 0, variableReadPointer := 0,
      writePointer := [0, 0] }
  let fx1 := fx0.setMaxDelayTime 2
  let fx2 := fx1.setDelayTimes (1 / 10)
  let fx3 := fx2.setWetDry (1 / 2)
  let fx4 := fx3.setFeedback (1 / 2)
  let fx5 := fx4.setLFORate m 2
  fx5.setLFODepth (1 / 100)

/-- The shape that the C++ types give every `Effect<Type, 2>`: `delayLines` and
`delayTimes` are `std::array`s of 2, `LFOPhase` and `writePointer` are arrays of 2. -/
def Effect.WellFormed (fx : Effect R) : Prop :=
  fx.delayLines.length = 2 ∧ fx.delayTimes.length = 2 ∧ fx.LFOPhase.length = 2 ∧
    fx.writePointer.length = 2

/-- The bound that the statement `dline.push (writePointer[ch], 0)` of `Effect::process`
needs when it runs in state `fx` on channel `ch`: the index is inside the delay line. -/
def Effect.pushInBounds (fx : Effect R) (ch : Nat) : Prop :=
  fx.writePointer.getD ch 0 < (fx.delayLines.getD ch ⟨[]⟩).size

instance (fx : Effect R) (ch : Nat) : Decidable (fx.pushInBounds ch) :=
  inferInstanceAs (Decidable (_ < _))

/-- A `juce::dsp::AudioBlock` as `renderVoices` builds it: a view of `numSamples` samples
of every channel of `buffer`, from `startSample` on.  With `ProcessContextReplacing` the
input block and the output block are this same view. -/
structure AudioBlock (R : Type) where
  buffer : AudioBuffer R
  startSample : Nat
  numSamples : Nat
deriving DecidableEq

/-- The call `getNumChannels()` of a block. -/
def AudioBlock.getNumChannels (b : AudioBlock R) : Nat :=
  b.buffer.getNumChannels

/-- The read `input[i]` through `inputBlock.getChannelPointer (ch)`. -/
def AudioBlock.getSample (b : AudioBlock R) (ch i : Nat) : R :=
  b.buffer.getSample ch (b.startSample + i)

/-- The write `output[i] = x` through `outputBlock.getChannelPointer (ch)`. -/
def AudioBlock.setSample (b : AudioBlock R) (ch i : Nat) (x : R) : AudioBlock R :=
  { b with buffer := ⟨b.buffer.channels.modify (fun c => c.set (b.startSample + i) x) ch⟩ }

/-- The inner loop of the Delay branch of `Effect::process` (hw4 lines 175-187) on channel
`ch`: `n` iterations from sample index `i`. -/
def Effect.delaySampleLoop (ch : Nat) : Nat → Nat → Effect R → AudioBlock R →
    Effect R × AudioBlock R
  | 0, _, fx, block => (fx, block)
  | n + 1, i, fx, block =>
    let fx1 := { fx with readPointer := 0 }
    let inputSample := block.getSample ch i
    let fx2 := { fx1 with
      delayLines := fx1.delayLines.modify (fun dline => dline.push (fx1.writePointer.getD ch 0) 0)
        ch }
    let outputSample := fx2.wetDry * inputSample
    let outputSample := if outputSample > 1 then 1 else outputSample
    Effect.delaySampleLoop ch n (i + 1) fx2 (block.setSample ch i outputSample)

/-- The inner loop of the Chorus branch of `Effect::process` (hw4 lines 207-226). -/
def Effect.chorusSampleLoop (ch : Nat) : Nat → Nat → Effect R → AudioBlock R →
    Effect R × AudioBlock R
  | 0, _, fx, block => (fx, block)
  | n + 1, i, fx, block =>
    let fx1 := { fx with LFOPhase := fx.LFOPhase.set ch 0, readPointer := 0 }
    let inputSample := block.getSample ch i
    let fx2 := { fx1 with
      delayLines := fx1.delayLines.modify (fun dline => dline.push (fx1.writePointer.getD ch 0) 0)
        ch }
    let fx3 := { fx2 with writePointer := fx2.writePointer.set ch (fx2.writePointer.getD ch 0 + 1) }
    let fx4 := if ((fx3.writePointer.getD ch 0 : Nat) : R) ≥ fx3.maxDelaySample then
        { fx3 with writePointer := fx3.writePointer.set ch 0 }
      else fx3
    let outputSample := fx4.wetDry * inputSample
    let outputSample := if outputSample > 1 then 1 else outputSample
    Effect.chorusSampleLoop ch n (i + 1) fx4 (block.setSample ch i outputSample)

/-- The inner loop of the Flanger branch of `Effect::process` (hw4 lines 246-263). -/
def Effect.flangerSampleLoop (ch : Nat) : Nat → Nat → Effect R → AudioBlock R →
    Effect R × AudioBlock R
  | 0, _, fx, block => (fx, block)
  | n + 1, i, fx, block =>
    let fx1 := { fx with LFOPhase := fx.LFOPhase.set ch 0 }
    let inputSample := block.getSample ch i
    let fx2 := { fx1 with
      delayLines := fx1.delayLines.modify (fun dline => dline.push (fx1.writePointer.getD ch 0) 0)
        ch }
    let outputSample := fx2.wetDry * inputSample
    let outputSample := if outputSample > 1 then 1 else outputSample
    Effect.flangerSampleLoop ch n (i + 1) fx2 (block.setSample ch i outputSample)

/-- The loop `for (size_t ch = 0; ch < numChannels; ++ch)` of each branch of
`Effect::process`, around the given inner loop: `n` channels from channel `ch` on. -/
def Effect.channelLoop
    (sampleLoop : Nat → Nat → Nat → Effect R → AudioBlock R → Effect R × AudioBlock R) :
    Nat → Nat → Effect R → AudioBlock R → Effect R × AudioBlock R
  | 0, _, fx, block => (fx, block)
  | n + 1, ch, fx, block =>
    let r := sampleLoop ch block.numSamples 0 fx block
    Effect.channelLoop sampleLoop n (ch + 1) r.1 r.2

/-- The method `Effect::process` (hw4 lines 149-270) on a replacing context. -/
def Effect.process (fx : Effect R) (context : AudioBlock R) : Effect R × AudioBlock R :=
  let numChannels := context.getNumChannels
  if fx.delayTimes.getD 0 0 > 0 then
    if fx.FXType = "Delay" then
      Effect.channelLoop Effect.delaySampleLoop numChannels 0 fx context
    else if fx.FXType = "Chorus" then
      Effect.channelLoop Effect.chorusSampleLoop numChannels 0 fx context
    else if fx.FXType = "Flanger" then
      Effect.channelLoop Effect.flangerSampleLoop numChannels 0 fx context
    else
      (fx, context)
  else
    (fx, context)

/-! ## FMSynthesizer of hw4 (hw4 lines 496-554) -/

/-- The loop `for (auto* voice : voices)` of `FMSynthesizer::renderVoices` (hw3 lines
243-253, hw4 lines 501-511): every voice renders into the same buffer, in order. -/
def renderVoiceList (m : MathLib R) (p : FMParams R) :
    List (FMVoice R) → AudioBuffer R → Nat → Int → List (FMVoice R) × AudioBuffer R
  | [], buffer, _, _ => ([], buffer)
  | voice :: rest, buffer, startSample, numSamples =>
    let r := voice.renderNextBlock m buffer startSample numSamples p
    let q := renderVoiceList m p rest r.2 startSample numSamples
    (r.1 :: q.1, q.2)

/-- The hw4 class `FMSynthesizer`: the voices held by the `juce::Synthesiser` base class,
the eleven FM parameters, the effect and the effect type. -/
structure HW4.FMSynthesizer (R : Type) extends FMParams R where
  voices : List (FMVoice R)
  FX : Effect R
  FXType : String
deriving DecidableEq

/-- The method `FMSynthesizer::renderVoices` of hw4 (lines 499-515). -/
def HW4.FMSynthesizer.renderVoices (m : MathLib R) (s : HW4.FMSynthesizer R)
    (buffer : AudioBuffer R) (startSample : Nat) (numSamples : Int) :
    HW4.FMSynthesizer R × AudioBuffer R :=
  let r := renderVoiceList m s.toFMParams s.voices buffer startSample numSamples
  let block : AudioBlock R := ⟨r.2, startSample, numSamples.toNat⟩
  if s.FXType ≠ "None" then
    let q := s.FX.process block
    ({ s with voices := r.1, FX := q.1 }, q.2.buffer)
  else
    ({ s with voices := r.1 }, r.2)

/-- The method `FMSynthesizer::setFXType` of hw4 (line 530). -/
def HW4.FMSynthesizer.setFXType (s : HW4.FMSynthesizer R) (value : String) :
    HW4.FMSynthesizer R :=
  { s with FX := s.FX.reset.setFXType value, FXType := value }

/-- The method `FMSynthesizer::setFeedback` of hw4 (line 531). -/
def HW4.FMSynthesizer.setFeedback (s : HW4.FMSynthesizer R) (value : R) :
    HW4.FMSynthesizer R :=
  { s with FX := s.FX.reset.setFeedback value }

/-- The method `FMSynthesizer::setDelayTime` of hw4 (line 532). -/
def HW4.FMSynthesizer.setDelayTime (s : HW4.FMSynthesizer R) (value : R) :
    HW4.FMSynthesizer R :=
  { s with FX := s.FX.reset.setDelayTimes value }

/-- The method `FMSynthesizer::setWetDry` of hw4 (line 533). -/
def HW4.FMSynthesizer.setWetDry (s : HW4.FMSynthesizer R) (value : R) :
    HW4.FMSynthesizer R :=
  { s with FX := s.FX.reset.setWetDry value }

/-- The method `FMSynthesizer::setLFORate` of hw4 (line 534). -/
def HW4.FMSynthesizer.setLFORate (m : MathLib R) (s : HW4.FMSynthesizer R) (value : R) :
    HW4.FMSynthesizer R :=
  { s with FX := s.FX.reset.setLFORate m value }

/-- The method `FMSynthesizer::setLFODepth` of hw4 (line 535). -/
def HW4.FMSynthesizer.setLFODepth (s : HW4.FMSynthesizer R) (value : R) :
    HW4.FMSynthesizer R :=
  { s with FX := s.FX.reset.setLFODepth value }

/-- The method `FMSynthesizer::setSampleRate` of hw4 (line 536); `sampleRate` is the value
that `getSampleRate()` of the `juce::Synthesiser` base class returns. -/
def HW4.FMSynthesizer.setSampleRate (m : MathLib R) (s : HW4.FMSynthesizer R)
    (sampleRate : R) : HW4.FMSynthesizer R :=
  { s with FX := s.FX.setSampleRate m sampleRate }

/-- The default member initialisers of the hw4 `FMSynthesizer` (lines 539-553) with the four
voices that the constructor of `SynthAudioSource` adds (lines 561-568). -/
def HW4.FMSynthesizer.new [FloorRing R] (m : MathLib R) (sampleRate : R) :
    HW4.FMSynthesizer R :=
  { toFMParams := FMParams.default,
    voices := List.replicate 4 (FMVoice.new sampleRate),
    FX := Effect.new m, FXType := "None" }

/-- The method `FMSynthesizer::setCarrierAmplitude` of hw4 (line 517). -/
def HW4.FMSynthesizer.setCarrierAmplitude (s : HW4.FMSynthesizer R) (value : R) :
    HW4.FMSynthesizer R :=
  { s with carrierAmplitude := value }

/-- The method `FMSynthesizer::setCarrierAttackTime` of hw4 (line 518). -/
def HW4.FMSynthesizer.setCarrierAttackTime (s : HW4.FMSynthesizer R) (value : R) :
    HW4.FMSynthesizer R :=
  { s with carrierAttackTime := value }

/-- The method `FMSynthesizer::setCarrierDecayTime` of hw4 (line 519). -/
def HW4.FMSynthesizer.setCarrierDecayTime (s : HW4.FMSynthesizer R) (value : R) :
    HW4.FMSynthesizer R :=
  { s with carrierDecayTime := value }

/-- The method `FMSynthesizer::setCarrierSustainLevel` of hw4 (line 520). -/
def HW4.FMSynthesizer.setCarrierSustainLevel (s : HW4.FMSynthesizer R) (value : R) :
    HW4.FMSynthesizer R :=
  { s with carrierSustainLevel := value }

/-- The method `FMSynthesizer::setCarrierReleaseTime` of hw4 (line 521). -/
def HW4.FMSynthesizer.setCarrierReleaseTime (s : HW4.FMSynthesizer R) (value : R) :
    HW4.FMSynthesizer R :=
  { s with carrierReleaseTime := value }

/-- The method `FMSynthesizer::setModulatorAmplitude` of hw4 (line 523). -/
def HW4.FMSynthesizer.setModulatorAmplitude (s : HW4.FMSynthesizer R) (value : R) :
    HW4.FMSynthesizer R :=
  { s with modulatorAmplitude := value }

/-- The method `FMSynthesizer::setModulatorFreqRatio` of hw4 (line 524). -/
def HW4.FMSynthesizer.setModulatorFreqRatio (s : HW4.FMSynthesizer R) (value : R) :
    HW4.FMSynthesizer R :=
  { s with modulatorFreqRatio := value }

/-- The method `FMSynthesizer::setModulatorAttackTime` of hw4 (line 525). -/
def HW4.FMSynthesizer.setModulatorAttackTime (s : HW4.FMSynthesizer R) (value : R) :
    HW4.FMSynthesizer R :=
  { s with modulatorAttackTime := value }

/-- The method `FMSynthesizer::setModulatorDecayTime` of hw4 (line 526). -/
def HW4.FMSynthesizer.setModulatorDecayTime (s : HW4.FMSynthesizer R) (value : R) :
    HW4.FMSynthesizer R :=
  { s with modulatorDecayTime := value }

/-- The method `FMSynthesizer::setModulatorSustainLevel` of hw4 (line 527). -/
def HW4.FMSynthesizer.setModulatorSustainLevel (s : HW4.FMSynthesizer R) (value : R) :
    HW4.FMSynthesizer R :=
  { s with modulatorSustainLevel := value }

/-- The method `FMSynthesizer::setModulatorReleaseTime` of hw4 (line 528). -/
def HW4.FMSynthesizer.setModulatorReleaseTime (s : HW4.FMSynthesizer R) (value : R) :
    HW4.FMSynthesizer R :=
  { s with modulatorReleaseTime := value }

/-! ## FMSynthesizer of hw3 (hw3 lines 238-283) -/

/-- The hw3 class `FMSynthesizer`: the voices held by the `juce::Synthesiser` base class and
the eleven FM parameters. -/
structure HW3.FMSynthesizer (R : Type) extends FMParams R where
  voices : List (FMVoice R)
deriving DecidableEq

/-- The method `FMSynthesizer::renderVoices` of hw3 (lines 241-254). -/
def HW3.FMSynthesizer.renderVoices (m : MathLib R) (s : HW3.FMSynthesizer R)
    (buffer : AudioBuffer R) (startSample : Nat) (numSamples : Int) :
    HW3.FMSynthesizer R × AudioBuffer R :=
  let r := renderVoiceList m s.toFMParams s.voices buffer startSample numSamples
  ({ s with voices := r.1 }, r.2)

/-- The default member initialisers of the hw3 `FMSynthesizer` (lines 271-282) with the four
voices that the constructor of `SynthAudioSource` adds (lines 289-296). -/
def HW3.FMSynthesizer.new (sampleRate : R) : HW3.FMSynthesizer R :=
  { toFMParams := FMParams.default,
    voices := List.replicate 4 (FMVoice.new sampleRate) }

/-- The method `FMSynthesizer::setCarrierAmplitude` of hw3 (line 257). -/
def HW3.FMSynthesizer.setCarrierAmplitude (s : HW3.FMSynthesizer R) (value : R) :
    HW3.FMSynthesizer R :=
  { s with carrierAmplitude := value }

/-- The method `FMSynthesizer::setCarrierAttackTime` of hw3 (line 258). -/
def HW3.FMSynthesizer.setCarrierAttackTime (s : HW3.FMSynthesizer R) (value : R) :
    HW3.FMSynthesizer R :=
  { s with carrierAttackTime := value }

/-- The method `FMSynthesizer::setCarrierDecayTime` of hw3 (line 259). -/
def HW3.FMSynthesizer.setCarrierDecayTime (s : HW3.FMSynthesizer R) (value : R) :
    HW3.FMSynthesizer R :=
  { s with carrierDecayTime := value }

/-- The method `FMSynthesizer::setCarrierSustainLevel` of hw3 (line 260). -/
def HW3.FMSynthesizer.setCarrierSustainLevel (s : HW3.FMSynthesizer R) (value : R) :
    HW3.FMSynthesizer R :=
  { s with carrierSustainLevel := value }

/-- The method `FMSynthesizer::setCarrierReleaseTime` of hw3 (line 261). -/
def HW3.FMSynthesizer.setCarrierReleaseTime (s : HW3.FMSynthesizer R) (value : R) :
    HW3.FMSynthesizer R :=
  { s with carrierReleaseTime := value }

/-- The method `FMSynthesizer::setModulatorAmplitude` of hw3 (line 263). -/
def HW3.FMSynthesizer.setModulatorAmplitude (s : HW3.FMSynthesizer R) (value : R) :
    HW3.FMSynthesizer R :=
  { s with modulatorAmplitude := value }

/-- The method `FMSynthesizer::setModulatorFreqRatio` of hw3 (line 264). -/
def HW3.FMSynthesizer.setModulatorFreqRatio (s : HW3.FMSynthesizer R) (value : R) :
    HW3.FMSynthesizer R :=
  { s with modulatorFreqRatio := value }

/-- The method `FMSynthesizer::setModulatorAttackTime` of hw3 (line 265). -/
def HW3.FMSynthesizer.setModulatorAttackTime (s : HW3.FMSynthesizer R) (value : R) :
    HW3.FMSynthesizer R :=
  { s with modulatorAttackTime := value }

/-- The method `FMSynthesizer::setModulatorDecayTime` of hw3 (line 266). -/
def HW3.FMSynthesizer.setModulatorDecayTime (s : HW3.FMSynthesizer R) (value : R) :
    HW3.FMSynthesizer R :=
  { s with modulatorDecayTime := value }

/-- The method `FMSynthesizer::setModulatorSustainLevel` of hw3 (line 267). -/
def HW3.FMSynthesizer.setModulatorSustainLevel (s : HW3.FMSynthesizer R) (value : R) :
    HW3.FMSynthesizer R :=
  { s with modulatorSustainLevel := value }

/-- The method `FMSynthesizer::setModulatorReleaseTime` of hw3 (line 268). -/
def HW3.FMSynthesizer.setModulatorReleaseTime (s : HW3.FMSynthesizer R) (value : R) :
    HW3.FMSynthesizer R :=
  { s with modulatorReleaseTime := value }

/-- C3 (hw3 and hw4 `FMVoice::getADSRCurve`): for every voice state, every attack, decay,
sustain and release value, both values of `isRelease` and every level at release, the
returned value lies in [0,1]. -/
theorem getADSRCurve_mem_unit_interval (v : FMVoice R) (attackTime decayTime sustainLevel
    releaseTime : R) (isRelease : Bool) (currentLevel : R) :
    0 ≤ v.getADSRCurve attackTime decayTime sustainLevel releaseTime isRelease currentLevel ∧
      v.getADSRCurve attackTime decayTime sustainLevel releaseTime isRelease currentLevel ≤ 1 := by
  unfold FMVoice.getADSRCurve
  cases isRelease <;> simp

/-! ### Buffer lemmas -/

theorem getD_modify_add (l : List R) (s j : Nat) (x : R) :
    (l.modify (fun y => y + x) s).getD j 0 =
      l.getD j 0 + (if j = s ∧ s < l.length then x else 0) := by
  simp only [List.getD_eq_getElem?_getD, List.getElem?_modify]
  by_cases hj : j < l.length
  · rw [List.getElem?_eq_getElem hj]
    by_cases hs : s = j
    · subst hs; simp [hj]
    · have hs2 : ¬ j = s := fun h => hs h.symm
      simp [hs, hs2]
  · have hnone : l[j]? = none := List.getElem?_eq_none (by omega)
    rw [hnone]
    have : ¬ (j = s ∧ s < l.length) := by omega
    simp [this]

theorem channels_getD_addSample (b : AudioBuffer R) (c s ch : Nat) (x : R) :
    (b.addSample c s x).channels.getD ch [] =
      if c = ch then (b.channels.getD ch []).modify (fun y => y + x) s
      else b.channels.getD ch [] := by
  simp only [AudioBuffer.addSample, List.getD_eq_getElem?_getD, List.getElem?_modify]
  by_cases hch : ch < b.channels.length
  · rw [List.getElem?_eq_getElem hch]
    by_cases hc : c = ch <;> simp [hc]
  · have hnone : b.channels[ch]? = none := List.getElem?_eq_none (by omega)
    rw [hnone]
    by_cases hc : c = ch <;> simp [hc]

theorem length_addSample (b : AudioBuffer R) (c s : Nat) (x : R) :
    (b.addSample c s x).channels.length = b.channels.length := by
  simp [AudioBuffer.addSample]

theorem length_addSampleAllChannels (i s : Nat) (x : R) (b : AudioBuffer R) :
    (b.addSampleAllChannels i s x).channels.length = b.channels.length := by
  induction i generalizing b with
  | zero => rfl
  | succ j ih => rw [AudioBuffer.addSampleAllChannels, ih, length_addSample]

theorem channels_getD_addSampleAllChannels (i s ch : Nat) (x : R) (b : AudioBuffer R) :
    (b.addSampleAllChannels i s x).channels.getD ch [] =
      if ch < i then (b.channels.getD ch []).modify (fun y => y + x) s
      else b.channels.getD ch [] := by
  induction i generalizing b with
  | zero => simp [AudioBuffer.addSampleAllChannels]
  | succ j ih =>
    rw [AudioBuffer.addSampleAllChannels, ih, channels_getD_addSample]
    by_cases h1 : ch < j
    · have h2 : ¬ j = ch := by omega
      have h3 : ch < j + 1 := by omega
      simp [h1, h2, h3]
    · by_cases h2 : j = ch
      · have h3 : ch < j + 1 := by omega
        simp [h1, h2, h3]
      · have h3 : ¬ ch < j + 1 := by omega
        simp [h1, h2, h3]

theorem channelLength_addSampleAllChannels (i s ch : Nat) (x : R) (b : AudioBuffer R) :
    (b.addSampleAllChannels i s x).channelLength ch = b.channelLength ch := by
  unfold AudioBuffer.channelLength
  rw [channels_getD_addSampleAllChannels]
  split <;> simp

theorem channelLength_eq_zero_of_ge (b : AudioBuffer R) (ch : Nat)
    (h : b.getNumChannels ≤ ch) : b.channelLength ch = 0 := by
  unfold AudioBuffer.channelLength AudioBuffer.getNumChannels at *
  rw [List.getD_eq_getElem?_getD, List.getElem?_eq_none h]
  rfl

theorem getSample_addSampleAllChannels (s ch j : Nat) (x : R) (b : AudioBuffer R) :
    (b.addSampleAllChannels b.getNumChannels s x).getSample ch j =
      b.getSample ch j + (if j = s ∧ s < b.channelLength ch then x else 0) := by
  unfold AudioBuffer.getSample
  rw [channels_getD_addSampleAllChannels]
  by_cases hch : ch < b.getNumChannels
  · rw [if_pos hch, getD_modify_add]
    rfl
  · have h0 := channelLength_eq_zero_of_ge b ch (by omega)
    rw [if_neg hch, h0]
    simp

/-! ### The loop of a sounding voice -/

theorem sustainLoop_voice (m : MathLib R) (p : FMParams R) (k : Nat) (v : FMVoice R)
    (buf : AudioBuffer R) (s : Nat) :
    (FMVoice.sustainLoop m p k v buf s).1.angleDelta = v.angleDelta ∧
    (FMVoice.sustainLoop m p k v buf s).1.tailOff = v.tailOff ∧
    (FMVoice.sustainLoop m p k v buf s).1.level = v.level ∧
    (FMVoice.sustainLoop m p k v buf s).1.sampleRate = v.sampleRate ∧
    (FMVoice.sustainLoop m p k v buf s).1.currentAngle = v.currentAngle + k * v.angleDelta := by
  induction k generalizing v buf s with
  | zero => simp [FMVoice.sustainLoop]
  | succ n ih =>
    rw [FMVoice.sustainLoop]
    obtain ⟨h1, h2, h3, h4, h5⟩ := ih
      { (v.getCurrentSample m p false).2 with
        currentAngle := (v.getCurrentSample m p false).2.currentAngle +
          (v.getCurrentSample m p false).2.angleDelta
        currentTime := (v.getCurrentSample m p false).2.currentTime +
          1 / (v.getCurrentSample m p false).2.sampleRate }
      (buf.addSampleAllChannels buf.getNumChannels s
        ((v.getCurrentSample m p false).1 * (v.getCurrentSample m p false).2.level)) (s + 1)
    refine ⟨?_, ?_, ?_, ?_, ?_⟩
    · rw [h1]; simp [FMVoice.getCurrentSample]
    · rw [h2]; simp [FMVoice.getCurrentSample]
    · rw [h3]; simp [FMVoice.getCurrentSample]
    · rw [h4]; simp [FMVoice.getCurrentSample]
    · rw [h5]; simp [FMVoice.getCurrentSample]; ring

theorem sustainLoop_channelLength (m : MathLib R) (p : FMParams R) (k : Nat) (v : FMVoice R)
    (buf : AudioBuffer R) (s ch : Nat) :
    (FMVoice.sustainLoop m p k v buf s).2.channelLength ch = buf.channelLength ch := by
  induction k generalizing v buf s with
  | zero => simp [FMVoice.sustainLoop]
  | succ n ih =>
    rw [FMVoice.sustainLoop, ih, channelLength_addSampleAllChannels]

theorem sustainLoop_getSample (m : MathLib R) (p : FMParams R) (k : Nat) (v : FMVoice R)
    (buf : AudioBuffer R) (s ch i : Nat) :
    (FMVoice.sustainLoop m p k v buf s).2.getSample ch i =
      buf.getSample ch i +
        (if s ≤ i ∧ i < s + k ∧ i < buf.channelLength ch then
          m.sin (v.currentAngle + ((i - s : Nat) : R) * v.angleDelta) * v.level
        else 0) := by
  induction k generalizing v buf s with
  | zero =>
    have : ¬ (s ≤ i ∧ i < s + 0 ∧ i < buf.channelLength ch) := by omega
    rw [FMVoice.sustainLoop, if_neg this, add_zero]
  | succ n ih =>
    rw [FMVoice.sustainLoop, ih, getSample_addSampleAllChannels,
      channelLength_addSampleAllChannels]
    simp only [FMVoice.getCurrentSample, Bool.not_false, if_true]
    by_cases hlen : i < buf.channelLength ch
    · rcases Nat.lt_trichotomy i s with hlt | heq | hgt
      · have a1 : ¬ (i = s ∧ s < buf.channelLength ch) := by omega
        have a2 : ¬ (s + 1 ≤ i ∧ i < s + 1 + n ∧ i < buf.channelLength ch) := by omega
        have a3 : ¬ (s ≤ i ∧ i < s + (n + 1) ∧ i < buf.channelLength ch) := by omega
        rw [if_neg a1, if_neg a2, if_neg a3]; simp
      · subst heq
        have a1 : (i = i ∧ i < buf.channelLength ch) := ⟨rfl, hlen⟩
        have a2 : ¬ (i + 1 ≤ i ∧ i < i + 1 + n ∧ i < buf.channelLength ch) := by omega
        have a3 : (i ≤ i ∧ i < i + (n + 1) ∧ i < buf.channelLength ch) := by omega
        rw [if_pos a1, if_neg a2, if_pos a3]; simp
      · obtain ⟨j, rfl⟩ : ∃ j, i = s + 1 + j := ⟨i - (s + 1), by omega⟩
        have a1 : ¬ (s + 1 + j = s ∧ s < buf.channelLength ch) := by omega
        by_cases hj : j < n
        · have a2 : (s + 1 ≤ s + 1 + j ∧ s + 1 + j < s + 1 + n ∧
              s + 1 + j < buf.channelLength ch) := by omega
          have a3 : (s ≤ s + 1 + j ∧ s + 1 + j < s + (n + 1) ∧
              s + 1 + j < buf.channelLength ch) := by omega
          have e1 : s + 1 + j - (s + 1) = j := by omega
          have e2 : s + 1 + j - s = j + 1 := by omega
          rw [if_neg a1, if_pos a2, if_pos a3, e1, e2]
          push_cast
          ring_nf
        · have a2 : ¬ (s + 1 ≤ s + 1 + j ∧ s + 1 + j < s + 1 + n ∧
              s + 1 + j < buf.channelLength ch) := by omega
          have a3 : ¬ (s ≤ s + 1 + j ∧ s + 1 + j < s + (n + 1) ∧
              s + 1 + j < buf.channelLength ch) := by omega
          rw [if_neg a1, if_neg a2, if_neg a3]; simp
    · have a1 : ¬ (i = s ∧ s < buf.channelLength ch) := by omega
      have a2 : ¬ (s + 1 ≤ i ∧ i < s + 1 + n ∧ i < buf.channelLength ch) := by omega
      have a3 : ¬ (s ≤ i ∧ i < s + (n + 1) ∧ i < buf.channelLength ch) := by omega
      rw [if_neg a1, if_neg a2, if_neg a3]; simp

theorem renderNextBlock_sounding (m : MathLib R) (p : FMParams R) (k : Nat) (v : FMVoice R)
    (buf : AudioBuffer R) (s : Nat) (hd : v.angleDelta ≠ 0) (ht : ¬ v.tailOff > 0) :
    v.renderNextBlock m buf s (k : Int) p = FMVoice.sustainLoop m p k v buf s := by
  simp [FMVoice.renderNextBlock, hd, ht]

theorem renderBlocks_getSample (m : MathLib R) (p : FMParams R) (blocks : List Nat)
    (v : FMVoice R) (buf : AudioBuffer R) (s ch i : Nat) (hd : v.angleDelta ≠ 0)
    (ht : ¬ v.tailOff > 0) :
    (FMVoice.renderBlocks m p blocks v buf s).2.getSample ch i =
      buf.getSample ch i +
        (if s ≤ i ∧ i < s + blocks.sum ∧ i < buf.channelLength ch then
          m.sin (v.currentAngle + ((i - s : Nat) : R) * v.angleDelta) * v.level
        else 0) := by
  induction blocks generalizing v buf s with
  | nil =>
    have : ¬ (s ≤ i ∧ i < s + ([] : List Nat).sum ∧ i < buf.channelLength ch) := by
      rw [List.sum_nil]; omega
    rw [FMVoice.renderBlocks, if_neg this, add_zero]
  | cons k ks ih =>
    rw [FMVoice.renderBlocks, renderNextBlock_sounding m p k v buf s hd ht]
    obtain ⟨h1, h2, h3, _, h5⟩ := sustainLoop_voice m p k v buf s
    rw [ih _ _ _ (by rw [h1]; exact hd) (by rw [h2]; exact ht), sustainLoop_getSample,
      sustainLoop_channelLength, h1, h3, h5, List.sum_cons]
    by_cases hlen : i < buf.channelLength ch
    · by_cases hlo : s ≤ i
      · by_cases hmid : i < s + k
        · have a1 : (s ≤ i ∧ i < s + k ∧ i < buf.channelLength ch) := ⟨hlo, hmid, hlen⟩
          have a2 : ¬ (s + k ≤ i ∧ i < s + k + ks.sum ∧ i < buf.channelLength ch) := by omega
          have a3 : (s ≤ i ∧ i < s + (k + ks.sum) ∧ i < buf.channelLength ch) := by omega
          rw [if_pos a1, if_neg a2, if_pos a3, add_zero]
        · have a1 : ¬ (s ≤ i ∧ i < s + k ∧ i < buf.channelLength ch) := by omega
          by_cases hhi : i < s + k + ks.sum
          · have a2 : (s + k ≤ i ∧ i < s + k + ks.sum ∧ i < buf.channelLength ch) := by omega
            have a3 : (s ≤ i ∧ i < s + (k + ks.sum) ∧ i < buf.channelLength ch) := by omega
            obtain ⟨j, rfl⟩ : ∃ j, i = s + k + j := ⟨i - (s + k), by omega⟩
            have e1 : s + k + j - (s + k) = j := by omega
            have e2 : s + k + j - s = k + j := by omega
            rw [if_neg a1, if_pos a2, if_pos a3, e1, e2]
            push_cast
            ring_nf
          · have a2 : ¬ (s + k ≤ i ∧ i < s + k + ks.sum ∧ i < buf.channelLength ch) := by
              omega
            have a3 : ¬ (s ≤ i ∧ i < s + (k + ks.sum) ∧ i < buf.channelLength ch) := by omega
            rw [if_neg a1, if_neg a2, if_neg a3, add_zero]
      · have a1 : ¬ (s ≤ i ∧ i < s + k ∧ i < buf.channelLength ch) := by omega
        have a2 : ¬ (s + k ≤ i ∧ i < s + k + ks.sum ∧ i < buf.channelLength ch) := by omega
        have a3 : ¬ (s ≤ i ∧ i < s + (k + ks.sum) ∧ i < buf.channelLength ch) := by omega
        rw [if_neg a1, if_neg a2, if_neg a3, add_zero]
    · have a1 : ¬ (s ≤ i ∧ i < s + k ∧ i < buf.channelLength ch) := by omega
      have a2 : ¬ (s + k ≤ i ∧ i < s + k + ks.sum ∧ i < buf.channelLength ch) := by omega
      have a3 : ¬ (s ≤ i ∧ i < s + (k + ks.sum) ∧ i < buf.channelLength ch) := by omega
      rw [if_neg a1, if_neg a2, if_neg a3, add_zero]

/-- C1 (hw3 `FMVoice::startNote`, `getCurrentSample`, `renderNextBlock`): at a sample rate
`sr > 0`, after `startNote (69, velocity)` and with no `stopNote`, whatever the block sizes
`blocks` of the following `renderNextBlock` calls and whatever the FM parameters (so also
for carrier amplitude 1, modulator amplitude 0, sustain level 1), the `n`-th sample added to
every channel `ch` is `0.15 * velocity * sin (2 * pi * 440 * n / sr)`.  Here `std::pow (2, 0)
= 1` and `pi ≠ 0` are assumed of the math library. -/
theorem startNote_69_renders_440Hz_sine (m : MathLib R) (hpow : m.pow2 0 = 1)
    (hpi : m.pi ≠ 0) (v : FMVoice R) (hsr : 0 < v.sampleRate) (velocity : R) (p : FMParams R)
    (blocks : List Nat) (buf : AudioBuffer R) (startSample ch n : Nat) (hn : n < blocks.sum)
    (hlen : startSample + n < buf.channelLength ch) :
    (FMVoice.renderBlocks m p blocks (v.startNote m 69 velocity) buf startSample).2.getSample
        ch (startSample + n) =
      buf.getSample ch (startSample + n) +
        15 / 100 * velocity * m.sin (2 * m.pi * 440 * (n : R) / v.sampleRate) := by
  have hsr0 : v.sampleRate ≠ 0 := ne_of_gt hsr
  have hd : (v.startNote m 69 velocity).angleDelta ≠ 0 := by
    simp [FMVoice.startNote, getMidiNoteInHertz, hpow, hpi, hsr0]
  have ht : ¬ (v.startNote m 69 velocity).tailOff > 0 := by
    simp [FMVoice.startNote]
  have hrange : (startSample ≤ startSample + n ∧ startSample + n < startSample + blocks.sum ∧
      startSample + n < buf.channelLength ch) := by omega
  have e : startSample + n - startSample = n := by omega
  rw [renderBlocks_getSample m p blocks _ buf startSample ch _ hd ht, if_pos hrange, e]
  have harg : (0 : R) + (n : R) * (440 * m.pow2 ((((69 : Int) : R) - 69) / 12) / v.sampleRate
      * 2 * m.pi) = 2 * m.pi * 440 * (n : R) / v.sampleRate := by
    simp [hpow]
    field_simp
    ring
  simp only [FMVoice.startNote, getMidiNoteInHertz]
  rw [harg]
  ring

/-- Witness for C1: the real sine, `2 ^ x` and `π` at 44100 Hz, velocity 1, the default
parameters, blocks of 2 and 3 samples into a cleared stereo buffer, sample `n = 4`. -/
theorem startNote_69_renders_440Hz_sine_witness :
    (0 : ℝ) < (FMVoice.new (44100 : ℝ)).sampleRate ∧ 4 < ([2, 3] : List Nat).sum ∧
    0 + 4 < (AudioBuffer.zeros 2 8 : AudioBuffer ℝ).channelLength 1 ∧
    (FMVoice.renderBlocks ⟨Real.sin, fun x => (2 : ℝ) ^ x, Real.pi⟩ FMParams.default [2, 3]
        ((FMVoice.new (44100 : ℝ)).startNote ⟨Real.sin, fun x => (2 : ℝ) ^ x, Real.pi⟩ 69 1)
        (AudioBuffer.zeros 2 8) 0).2.getSample 1 (0 + 4) =
      (AudioBuffer.zeros 2 8 : AudioBuffer ℝ).getSample 1 (0 + 4) +
        15 / 100 * 1 * Real.sin (2 * Real.pi * 440 * ((4 : Nat) : ℝ) /
          (FMVoice.new (44100 : ℝ)).sampleRate) :=
  have h1 : (0 : ℝ) < (FMVoice.new (44100 : ℝ)).sampleRate := by
    simp [FMVoice.new]
  have h2 : 4 < ([2, 3] : List Nat).sum := by decide
  have h3 : 0 + 4 < (AudioBuffer.zeros 2 8 : AudioBuffer ℝ).channelLength 1 := by
    simp [AudioBuffer.zeros, AudioBuffer.channelLength]
  ⟨h1, h2, h3, startNote_69_renders_440Hz_sine ⟨Real.sin, fun x => (2 : ℝ) ^ x, Real.pi⟩
    (by simp) Real.pi_ne_zero (FMVoice.new 44100) h1 1 FMParams.default [2, 3]
    (AudioBuffer.zeros 2 8) 0 1 4 h2 h3⟩

/-! ### Idle voices -/

theorem renderVoiceList_idle (m : MathLib R) (p : FMParams R) (voices : List (FMVoice R))
    (h : ∀ v ∈ voices, v.isIdle) (buf : AudioBuffer R) (s : Nat) (n : Int) :
    renderVoiceList m p voices buf s n = (voices, buf) := by
  induction voices with
  | nil => rfl
  | cons v vs ih =>
    have hv : v.angleDelta = 0 := h v (List.mem_cons_self v vs)
    have hidle : v.renderNextBlock m buf s n p = (v, buf) := by
      simp [FMVoice.renderNextBlock, hv]
    rw [renderVoiceList, hidle, ih (fun w hw => h w (List.mem_cons_of_mem v hw))]

/-- C2 (hw4 `FMSynthesizer::renderVoices`): when every voice of the synthesizer is idle (no
note was started) and the effect type is None, rendering any number of samples at any
position into a zero-filled buffer returns the zero-filled buffer: every sample of every
channel is 0. -/
theorem renderVoices_idle_none_is_silent (m : MathLib R) (s : HW4.FMSynthesizer R)
    (hIdle : ∀ v ∈ s.voices, v.isIdle) (hFX : s.FXType = "None")
    (numChannels bufferSize startSample : Nat) (numSamples : Int) :
    (s.renderVoices m (AudioBuffer.zeros numChannels bufferSize) startSample numSamples).2 =
        AudioBuffer.zeros numChannels bufferSize ∧
      ∀ ch i, (s.renderVoices m (AudioBuffer.zeros numChannels bufferSize) startSample
        numSamples).2.getSample ch i = 0 := by
  have hbuf : (s.renderVoices m (AudioBuffer.zeros numChannels bufferSize) startSample
      numSamples).2 = AudioBuffer.zeros numChannels bufferSize := by
    simp [HW4.FMSynthesizer.renderVoices, hFX, renderVoiceList_idle m _ s.voices hIdle]
  refine ⟨hbuf, fun ch i => ?_⟩
  rw [hbuf]
  unfold AudioBuffer.getSample AudioBuffer.zeros
  simp only [List.getD_eq_getElem?_getD, List.getElem?_replicate]
  by_cases hch : ch < numChannels
  · by_cases hi : i < bufferSize <;> simp [hch, hi]
  · simp [hch]

/-- Witness for C2: the freshly constructed hw4 synthesizer (four new voices, effect type
None) at 44100 Hz, rendering one second into a cleared stereo buffer. -/
theorem renderVoices_idle_none_is_silent_witness :
    (∀ v ∈ (HW4.FMSynthesizer.new ⟨Real.sin, fun x => (2 : ℝ) ^ x, Real.pi⟩
        (44100 : ℝ)).voices, v.isIdle) ∧
    (HW4.FMSynthesizer.new ⟨Real.sin, fun x => (2 : ℝ) ^ x, Real.pi⟩
        (44100 : ℝ)).FXType = "None" ∧
    ((HW4.FMSynthesizer.new ⟨Real.sin, fun x => (2 : ℝ) ^ x, Real.pi⟩
        (44100 : ℝ)).renderVoices ⟨Real.sin, fun x => (2 : ℝ) ^ x, Real.pi⟩
        (AudioBuffer.zeros 2 44100) 0 44100).2 = AudioBuffer.zeros 2 44100 ∧
      ∀ ch i, ((HW4.FMSynthesizer.new ⟨Real.sin, fun x => (2 : ℝ) ^ x, Real.pi⟩
        (44100 : ℝ)).renderVoices ⟨Real.sin, fun x => (2 : ℝ) ^ x, Real.pi⟩
        (AudioBuffer.zeros 2 44100) 0 44100).2.getSample ch i = 0 :=
  have h1 : ∀ v ∈ (HW4.FMSynthesizer.new ⟨Real.sin, fun x => (2 : ℝ) ^ x, Real.pi⟩
      (44100 : ℝ)).voices, v.isIdle := by
    intro v hv
    simp only [HW4.FMSynthesizer.new, List.mem_replicate] at hv
    rw [hv.2]
    rfl
  have h2 : (HW4.FMSynthesizer.new ⟨Real.sin, fun x => (2 : ℝ) ^ x, Real.pi⟩
      (44100 : ℝ)).FXType = "None" := rfl
  ⟨h1, h2, renderVoices_idle_none_is_silent _ _ h1 h2 2 44100 0 44100⟩

/-- C7 (hw3 and hw4 `FMVoice::getADSRCurve`): with attack time 0 and `isRelease = false`,
at elapsed time 0 the returned value is 1, for every decay, sustain and release value and
every level at release. -/
theorem getADSRCurve_attack_zero_at_time_zero (v : FMVoice R) (decayTime sustainLevel
    releaseTime currentLevel : R) :
    FMVoice.getADSRCurve { v with currentTime := 0 } 0 decayTime sustainLevel releaseTime
      false currentLevel = 1 := by
  simp [FMVoice.getADSRCurve]

/-! ### Where the sources stop short of the specification

The bodies below are the placeholders the hand-out leaves under its `Problem #n` comments
(`Implement linear attack curve`, `Implement case for sustain`, `Implement exponential
release curve`, `Modify this block to implement FM synthesis with ADSR curves`, `Modify this
block to implement a simple delay effect`, `... a chorus effect`).  Each theorem evaluates
the code at one input and compares with the value the specification asks for. -/

/-- C4 (hw3 and hw4 `FMVoice::getADSRCurve`): in sustain (attack 0, decay 0, elapsed time 1,
not released) with sustain level 1/2 the code returns 1, not the sustain level 1/2. -/
theorem getADSRCurve_sustain_returns_one_not_sustainLevel :
    FMVoice.getADSRCurve { FMVoice.new (44100 : ℚ) with currentTime := 1 } 0 0 (1 / 2) 0
      false 0 = 1 ∧
    FMVoice.getADSRCurve { FMVoice.new (44100 : ℚ) with currentTime := 1 } 0 0 (1 / 2) 0
      false 0 ≠ 1 / 2 := by
  constructor <;> norm_num [FMVoice.getADSRCurve, FMVoice.new]

/-- C5 (hw3 and hw4 `FMVoice::getADSRCurve`): half way through an attack of 1 second
(elapsed time 1/2, not released) the code returns 1, not the ramp value t / a = 1/2. -/
theorem getADSRCurve_attack_returns_one_not_ramp :
    FMVoice.getADSRCurve { FMVoice.new (44100 : ℚ) with currentTime := 1 / 2 } 1 (1 / 100) 1
      (1 / 100) false 0 = 1 ∧
    FMVoice.getADSRCurve { FMVoice.new (44100 : ℚ) with currentTime := 1 / 2 } 1 (1 / 100) 1
      (1 / 100) false 0 ≠ (1 / 2) / 1 := by
  constructor <;> norm_num [FMVoice.getADSRCurve, FMVoice.new]

/-- C6 (hw3 and hw4 `FMVoice::getADSRCurve`): at the start of a release of 1 second (elapsed
release time 0, `isRelease = true`) from the level 1 the code returns 0, not the level at
release 1. -/
theorem getADSRCurve_release_starts_at_zero_not_level :
    FMVoice.getADSRCurve { FMVoice.new (44100 : ℚ) with currentTime := 0 } 0 (1 / 100) 1 1
      true 1 = 0 ∧
    FMVoice.getADSRCurve { FMVoice.new (44100 : ℚ) with currentTime := 0 } 0 (1 / 100) 1 1
      true 1 ≠ 1 := by
  constructor <;> norm_num [FMVoice.getADSRCurve, FMVoice.new]

/-- C8 (hw4 `Effect::process`, Delay branch): the constructed effect set to Delay with
feedback 0, wet/dry 1 and a delay time of 1/48000 s (`D = 1` sample at 48000 Hz), reset,
processing the mono block `[1/2, 1/4]`: the code returns `[1/2, 1/4]` (the input), not the
input delayed by one sample `[0, 1/2]`. -/
theorem process_delay_returns_input_undelayed :
    (((((Effect.new ⟨Real.sin, fun x => (2 : ℝ) ^ x, Real.pi⟩).setFXType "Delay").setFeedback
      0).setWetDry 1).setDelayTimes (1 / 48000)).reset.delayTimes.getD 0 0 * 48000 = 1 ∧
    ((((((Effect.new ⟨Real.sin, fun x => (2 : ℝ) ^ x, Real.pi⟩).setFXType "Delay").setFeedback
      0).setWetDry 1).setDelayTimes (1 / 48000)).reset.process
        ⟨⟨[[1 / 2, 1 / 4]]⟩, 0, 2⟩).2.buffer.channels = [[1 / 2, 1 / 4]] ∧
    ((((((Effect.new ⟨Real.sin, fun x => (2 : ℝ) ^ x, Real.pi⟩).setFXType "Delay").setFeedback
      0).setWetDry 1).setDelayTimes (1 / 48000)).reset.process
        ⟨⟨[[1 / 2, 1 / 4]]⟩, 0, 2⟩).2.buffer.channels ≠ [[0, 1 / 2]] := by
  refine ⟨?_, ?_, ?_⟩ <;>
  simp [Effect.new, Effect.setFXType, Effect.setFeedback, Effect.setWetDry, Effect.setDelayTimes,
    Effect.setDelayTimesLoop, Effect.reset, Effect.resetLoop, Effect.process, Effect.channelLoop,
    Effect.delaySampleLoop, Effect.getNumChannels, Effect.setMaxDelayTime, Effect.setLFORate,
    Effect.setLFODepth, Effect.updateDelayLineSize, AudioBlock.getNumChannels,
    AudioBuffer.getNumChannels, AudioBlock.getSample, AudioBlock.setSample,
    AudioBuffer.getSample] <;>
  norm_num

/-- C9 (hw4 `Effect::process`, Chorus branch): the constructed effect set to Chorus with LFO
depth 0, wet/dry 1/2 and a delay time of 1/48000 s (`D = 1` sample at 48000 Hz), reset,
processing the mono block `x = [1, 0]`: the code returns `[1/2, 0]`, while
`(1 - wetDry) * x[n] + wetDry * x[n - D]` is `[1/2, 1/2]`. -/
theorem process_chorus_returns_scaled_input :
    (((((Effect.new ⟨Real.sin, fun x => (2 : ℝ) ^ x, Real.pi⟩).setFXType "Chorus").setLFODepth
      0).setWetDry (1 / 2)).setDelayTimes (1 / 48000)).reset.delayTimes.getD 0 0 * 48000 = 1 ∧
    ((((((Effect.new ⟨Real.sin, fun x => (2 : ℝ) ^ x, Real.pi⟩).setFXType "Chorus").setLFODepth
      0).setWetDry (1 / 2)).setDelayTimes (1 / 48000)).reset.process
        ⟨⟨[[1, 0]]⟩, 0, 2⟩).2.buffer.channels = [[1 / 2, 0]] ∧
    ((((((Effect.new ⟨Real.sin, fun x => (2 : ℝ) ^ x, Real.pi⟩).setFXType "Chorus").setLFODepth
      0).setWetDry (1 / 2)).setDelayTimes (1 / 48000)).reset.process
        ⟨⟨[[1, 0]]⟩, 0, 2⟩).2.buffer.channels ≠
      [[(1 - 1 / 2) * 1 + 1 / 2 * 0, (1 - 1 / 2) * 0 + 1 / 2 * 1]] := by
  refine ⟨?_, ?_, ?_⟩ <;>
  simp [Effect.new, Effect.setFXType, Effect.setFeedback, Effect.setWetDry, Effect.setDelayTimes,
    Effect.setDelayTimesLoop, Effect.reset, Effect.resetLoop, Effect.process, Effect.channelLoop,
    Effect.chorusSampleLoop, Effect.getNumChannels, Effect.setMaxDelayTime, Effect.setLFORate,
    Effect.setLFODepth, Effect.updateDelayLineSize, AudioBlock.getNumChannels,
    AudioBuffer.getNumChannels, AudioBlock.getSample, AudioBlock.setSample,
    AudioBuffer.getSample] <;>
  norm_num

/-- C10 (hw3 and hw4 `FMVoice::getCurrentSample`, `renderNextBlock`): at 44100 Hz, after
`startNote (69, 1)`, with carrier amplitude 2 and modulator amplitude 0 (the other
parameters at their defaults, so the carrier envelope is 1), the second sample rendered is
`sin θ * 0.15` with `θ = 2π·440/44100` the carrier phase, not
`sin θ * carrierEnvelope * carrierAmplitude * level = sin θ * 1 * 2 * 0.15`. -/
theorem renderNextBlock_sample_ignores_carrierAmplitude :
    (FMVoice.renderNextBlock ⟨Real.sin, fun x => (2 : ℝ) ^ x, Real.pi⟩
      ((FMVoice.new (44100 : ℝ)).startNote ⟨Real.sin, fun x => (2 : ℝ) ^ x, Real.pi⟩ 69 1)
      (AudioBuffer.zeros 2 2) 0 2
      { FMParams.default with carrierAmplitude := 2 }).2.getSample 0 1 =
        Real.sin (2 * Real.pi * 440 / 44100) * (15 / 100) ∧
    Real.sin (2 * Real.pi * 440 / 44100) * (15 / 100) ≠
      Real.sin (2 * Real.pi * 440 / 44100) * 1 * 2 * (15 / 100) := by
  have hθ : 0 < Real.sin (2 * Real.pi * 440 / 44100) := by
    apply Real.sin_pos_of_pos_of_lt_pi
    · have := Real.pi_pos
      positivity
    · have := Real.pi_pos
      linarith
  constructor
  · have hd : ((FMVoice.new (44100 : ℝ)).startNote
        ⟨Real.sin, fun x => (2 : ℝ) ^ x, Real.pi⟩ 69 1).angleDelta ≠ 0 := by
      simp [FMVoice.startNote, getMidiNoteInHertz, FMVoice.new, Real.pi_ne_zero]
    have ht : ¬ ((FMVoice.new (44100 : ℝ)).startNote
        ⟨Real.sin, fun x => (2 : ℝ) ^ x, Real.pi⟩ 69 1).tailOff > 0 := by
      simp [FMVoice.startNote]
    have hk := renderNextBlock_sounding ⟨Real.sin, fun x => (2 : ℝ) ^ x, Real.pi⟩
      { FMParams.default with carrierAmplitude := 2 } 2 _ (AudioBuffer.zeros 2 2) 0 hd ht
    have hr : (0 ≤ 1 ∧ 1 < 0 + 2 ∧ 1 < (AudioBuffer.zeros 2 2 : AudioBuffer ℝ).channelLength 0) := by
      simp [AudioBuffer.zeros, AudioBuffer.channelLength]
    rw [show ((2 : Int)) = ((2 : Nat) : Int) from rfl, hk, sustainLoop_getSample, if_pos hr]
    simp [FMVoice.startNote, getMidiNoteInHertz, FMVoice.new, AudioBuffer.zeros,
      AudioBuffer.getSample]
    congr 1
    ring
  · intro h
    nlinarith

/-! ### Note on, note off -/

/-- C11 (hw3 and hw4 `FMVoice::startNote`): for every voice state, note number and velocity,
`startNote` leaves the voice with carrier phase 0, elapsed time 0, the tail-off flag 0, the
level `0.15 * velocity` and the phase increment `2 * pi * f / sampleRate` with
`f = 440 * 2 ^ ((note - 69) / 12)`, the power of two being the math library's. -/
theorem startNote_resets_phase_time_level_increment (m : MathLib R) (v : FMVoice R)
    (midiNoteNumber : Int) (velocity : R) :
    (v.startNote m midiNoteNumber velocity).currentAngle = 0 ∧
    (v.startNote m midiNoteNumber velocity).currentTime = 0 ∧
    (v.startNote m midiNoteNumber velocity).tailOff = 0 ∧
    (v.startNote m midiNoteNumber velocity).level = 15 / 100 * velocity ∧
    (v.startNote m midiNoteNumber velocity).angleDelta =
      2 * m.pi * (440 * m.pow2 (((midiNoteNumber : R) - 69) / 12)) / v.sampleRate := by
  refine ⟨rfl, rfl, rfl, ?_, ?_⟩
  · simp only [FMVoice.startNote]
    ring
  · simp only [FMVoice.startNote, getMidiNoteInHertz]
    ring

theorem renderNextBlock_idle (m : MathLib R) (v : FMVoice R) (h : v.isIdle)
    (buf : AudioBuffer R) (s : Nat) (n : Int) (p : FMParams R) :
    v.renderNextBlock m buf s n p = (v, buf) := by
  have h0 : v.angleDelta = 0 := h
  simp [FMVoice.renderNextBlock, h0]

theorem renderCalls_idle (m : MathLib R) (calls : List (Nat × Int × FMParams R))
    (v : FMVoice R) (h : v.isIdle) (buf : AudioBuffer R) :
    FMVoice.renderCalls m calls v buf = (v, buf) := by
  induction calls with
  | nil => rfl
  | cons c cs ih => rw [FMVoice.renderCalls, renderNextBlock_idle m v h, ih]

/-- C12 (hw3 and hw4 `FMVoice::stopNote`, `renderNextBlock`): for every voice state, after
`stopNote` with `allowTailOff = false` the voice is idle, and every run of later
`renderNextBlock` calls, whatever their start positions, sample counts and parameters,
returns the buffer and the voice unchanged. -/
theorem stopNote_without_tailOff_silences_voice (m : MathLib R) (v : FMVoice R)
    (calls : List (Nat × Int × FMParams R)) (buf : AudioBuffer R) :
    (v.stopNote false).isIdle ∧
      FMVoice.renderCalls m calls (v.stopNote false) buf = (v.stopNote false, buf) := by
  have hidle : (v.stopNote false).isIdle := by
    simp [FMVoice.stopNote, FMVoice.isIdle]
  exact ⟨hidle, renderCalls_idle m calls _ hidle buf⟩

/-- C13 (hw3 and hw4 `FMVoice::stopNote`): for a sounding voice, `stopNote` with
`allowTailOff = true` makes the voice releasing with elapsed time 0 and leaves the carrier
phase, the phase increment, the level and the two stored envelope levels as they were. -/
theorem stopNote_with_tailOff_starts_release (v : FMVoice R) (h : v.isSounding) :
    (v.stopNote true).isReleasing ∧ (v.stopNote true).currentTime = 0 ∧
    (v.stopNote true).currentAngle = v.currentAngle ∧
    (v.stopNote true).angleDelta = v.angleDelta ∧
    (v.stopNote true).level = v.level ∧
    (v.stopNote true).currentCarrierLevel = v.currentCarrierLevel ∧
    (v.stopNote true).currentModulatorLevel = v.currentModulatorLevel := by
  obtain ⟨hd, ht⟩ := h
  simp [FMVoice.stopNote, FMVoice.isReleasing, ht, hd]

/-- Witness for C13: the voice at 44100 Hz after `startNote (69, 1)` with the real math
library. -/
theorem stopNote_with_tailOff_starts_release_witness :
    ((FMVoice.new (44100 : ℝ)).startNote ⟨Real.sin, fun x => (2 : ℝ) ^ x, Real.pi⟩ 69
        1).isSounding ∧
    (((FMVoice.new (44100 : ℝ)).startNote ⟨Real.sin, fun x => (2 : ℝ) ^ x, Real.pi⟩ 69
        1).stopNote true).isReleasing :=
  have h : ((FMVoice.new (44100 : ℝ)).startNote ⟨Real.sin, fun x => (2 : ℝ) ^ x, Real.pi⟩ 69
      1).isSounding := by
    simp [FMVoice.isSounding, FMVoice.startNote, getMidiNoteInHertz, FMVoice.new,
      Real.pi_ne_zero]
  ⟨h, (stopNote_with_tailOff_starts_release _ h).1⟩

/-! ### The tail-off loop -/

theorem range_split_add (L s i n k : Nat) (g : Nat → R) :
    (if s ≤ i ∧ i < s + n ∧ i < L then g (i - s) else 0) +
        (if s + n ≤ i ∧ i < s + n + k ∧ i < L then g (i - (s + n) + n) else 0) =
      if s ≤ i ∧ i < s + (n + k) ∧ i < L then g (i - s) else 0 := by
  by_cases h1 : s ≤ i ∧ i < s + n ∧ i < L
  · have h2 : ¬ (s + n ≤ i ∧ i < s + n + k ∧ i < L) := by omega
    have h3 : s ≤ i ∧ i < s + (n + k) ∧ i < L := by omega
    rw [if_pos h1, if_neg h2, if_pos h3, add_zero]
  · by_cases h2 : s + n ≤ i ∧ i < s + n + k ∧ i < L
    · have h3 : s ≤ i ∧ i < s + (n + k) ∧ i < L := by omega
      have e : i - (s + n) + n = i - s := by omega
      rw [if_neg h1, if_pos h2, if_pos h3, zero_add, e]
    · have h3 : ¬ (s ≤ i ∧ i < s + (n + k) ∧ i < L) := by omega
      rw [if_neg h1, if_neg h2, if_neg h3, add_zero]

theorem tailOffLoop_succ_break (m : MathLib R) (p : FMParams R) (n : Nat) (v : FMVoice R)
    (buf : AudioBuffer R) (s : Nat)
    (h : p.carrierReleaseTime < v.currentTime + 1 / v.sampleRate) :
    FMVoice.tailOffLoop m p (n + 1) v buf s =
      ({ v with
          currentAngle := v.currentAngle + v.angleDelta
          currentTime := v.currentTime + 1 / v.sampleRate
          angleDelta := 0
          currentlyPlayingNote := -1 },
        buf.addSampleAllChannels buf.getNumChannels s (m.sin v.currentAngle * v.level)) := by
  simp only [FMVoice.tailOffLoop, FMVoice.getCurrentSample, FMVoice.clearCurrentNote,
    Bool.not_true, Bool.false_eq_true, if_false, if_pos h]

theorem tailOffLoop_succ_continue (m : MathLib R) (p : FMParams R) (n : Nat) (v : FMVoice R)
    (buf : AudioBuffer R) (s : Nat)
    (h : ¬ p.carrierReleaseTime < v.currentTime + 1 / v.sampleRate) :
    FMVoice.tailOffLoop m p (n + 1) v buf s =
      FMVoice.tailOffLoop m p n
        { v with
          currentAngle := v.currentAngle + v.angleDelta
          currentTime := v.currentTime + 1 / v.sampleRate }
        (buf.addSampleAllChannels buf.getNumChannels s (m.sin v.currentAngle * v.level))
        (s + 1) := by
  simp only [FMVoice.tailOffLoop, FMVoice.getCurrentSample, Bool.not_true,
    Bool.false_eq_true, if_false, if_neg h]

theorem tailOffLoop_channelLength (m : MathLib R) (p : FMParams R) (n : Nat) (v : FMVoice R)
    (buf : AudioBuffer R) (s ch : Nat) :
    (FMVoice.tailOffLoop m p n v buf s).2.channelLength ch = buf.channelLength ch := by
  induction n generalizing v buf s with
  | zero => simp [FMVoice.tailOffLoop]
  | succ n ih =>
    by_cases h : p.carrierReleaseTime < v.currentTime + 1 / v.sampleRate
    · rw [tailOffLoop_succ_break m p n v buf s h, channelLength_addSampleAllChannels]
    · rw [tailOffLoop_succ_continue m p n v buf s h, ih, channelLength_addSampleAllChannels]

theorem renderNextBlock_releasing (m : MathLib R) (p : FMParams R) (k : Nat) (v : FMVoice R)
    (buf : AudioBuffer R) (s : Nat) (hd : v.angleDelta ≠ 0) (ht : v.tailOff > 0) :
    v.renderNextBlock m buf s (k : Int) p = FMVoice.tailOffLoop m p k v buf s := by
  simp [FMVoice.renderNextBlock, hd, ht]

theorem tailOffLoop_increment (m : MathLib R) (p : FMParams R) (n : Nat) (v : FMVoice R)
    (s : Nat) :
    ∃ inc : Nat → R, ∀ (buf : AudioBuffer R) (ch i : Nat),
      (FMVoice.tailOffLoop m p n v buf s).2.getSample ch i =
        buf.getSample ch i +
          (if s ≤ i ∧ i < s + n ∧ i < buf.channelLength ch then inc i else 0) := by
  induction n generalizing v s with
  | zero =>
    refine ⟨fun _ => 0, fun buf ch i => ?_⟩
    simp [FMVoice.tailOffLoop]
  | succ n ih =>
    by_cases hb : p.carrierReleaseTime < v.currentTime + 1 / v.sampleRate
    · refine ⟨fun i => if i = s then m.sin v.currentAngle * v.level else 0,
        fun buf ch i => ?_⟩
      rw [tailOffLoop_succ_break m p n v buf s hb, getSample_addSampleAllChannels]
      beta_reduce
      by_cases hi : i = s ∧ s < buf.channelLength ch
      · have h2 : s ≤ i ∧ i < s + (n + 1) ∧ i < buf.channelLength ch := by omega
        rw [if_pos hi, if_pos h2, if_pos hi.1]
      · by_cases h2 : s ≤ i ∧ i < s + (n + 1) ∧ i < buf.channelLength ch
        · have h3 : ¬ i = s := by omega
          rw [if_neg hi, if_pos h2, if_neg h3]
        · rw [if_neg hi, if_neg h2]
    · obtain ⟨inc, hinc⟩ := ih
        { v with
          currentAngle := v.currentAngle + v.angleDelta
          currentTime := v.currentTime + 1 / v.sampleRate } (s + 1)
      refine ⟨fun i => if i = s then m.sin v.currentAngle * v.level else inc i,
        fun buf ch i => ?_⟩
      rw [tailOffLoop_succ_continue m p n v buf s hb, hinc, getSample_addSampleAllChannels,
        channelLength_addSampleAllChannels]
      beta_reduce
      by_cases hi : i = s ∧ s < buf.channelLength ch
      · have h1 : ¬ (s + 1 ≤ i ∧ i < s + 1 + n ∧ i < buf.channelLength ch) := by omega
        have h2 : s ≤ i ∧ i < s + (n + 1) ∧ i < buf.channelLength ch := by omega
        rw [if_pos hi, if_neg h1, if_pos h2, if_pos hi.1, add_zero]
      · by_cases h1 : s + 1 ≤ i ∧ i < s + 1 + n ∧ i < buf.channelLength ch
        · have h2 : s ≤ i ∧ i < s + (n + 1) ∧ i < buf.channelLength ch := by omega
          have h3 : ¬ i = s := by omega
          rw [if_neg hi, if_pos h1, if_pos h2, if_neg h3, add_zero]
        · have h2 : ¬ (s ≤ i ∧ i < s + (n + 1) ∧ i < buf.channelLength ch) := by omega
          rw [if_neg hi, if_neg h1, if_neg h2, add_zero]

/-- C15 (hw3 and hw4 `FMVoice::renderNextBlock`): for every voice, start position, sample
count and parameter set there is one increment per sample index, the same for every buffer
and every channel, such that the block adds that increment to the sample already at each
index of `[startSample, startSample + numSamples)` in every channel and leaves every sample
outside that range as it was; no channel changes its length. -/
theorem renderNextBlock_adds_same_increment_to_every_channel (m : MathLib R) (v : FMVoice R)
    (startSample : Nat) (numSamples : Int) (p : FMParams R) :
    ∃ inc : Nat → R, ∀ (buf : AudioBuffer R) (ch i : Nat),
      (v.renderNextBlock m buf startSample numSamples p).2.channelLength ch =
          buf.channelLength ch ∧
        (v.renderNextBlock m buf startSample numSamples p).2.getSample ch i =
          buf.getSample ch i +
            (if startSample ≤ i ∧ i < startSample + numSamples.toNat ∧
                i < buf.channelLength ch then inc i else 0) := by
  by_cases hd : v.angleDelta = 0
  · refine ⟨fun _ => 0, fun buf ch i => ?_⟩
    rw [renderNextBlock_idle m v hd]
    simp
  · by_cases ht : v.tailOff > 0
    · obtain ⟨inc, hinc⟩ := tailOffLoop_increment m p numSamples.toNat v startSample
      refine ⟨inc, fun buf ch i => ?_⟩
      have e : v.renderNextBlock m buf startSample numSamples p =
          FMVoice.tailOffLoop m p numSamples.toNat v buf startSample := by
        simp [FMVoice.renderNextBlock, hd, ht]
      rw [e]
      exact ⟨tailOffLoop_channelLength m p _ v buf startSample ch, hinc buf ch i⟩
    · refine ⟨fun i => m.sin (v.currentAngle + ((i - startSample : Nat) : R) * v.angleDelta)
        * v.level, fun buf ch i => ?_⟩
      have e : v.renderNextBlock m buf startSample numSamples p =
          FMVoice.sustainLoop m p numSamples.toNat v buf startSample := by
        simp [FMVoice.renderNextBlock, hd, ht]
      rw [e]
      exact ⟨sustainLoop_channelLength m p _ v buf startSample ch,
        sustainLoop_getSample m p _ v buf startSample ch i⟩

/-! ### The effect block: type None, reset -/

/-- C16 (hw4 `FMSynthesizer::renderVoices`, `Effect::process`): while the synthesizer's
effect type is None, `renderVoices` returns the buffer exactly as the voices left it and
the effect (delay lines, write cursors, LFO phases and all other fields) unchanged; and
`Effect::process` called on an effect whose own type is None returns the effect and the
block unchanged. -/
theorem effect_type_none_is_pass_through (m : MathLib R) (s : HW4.FMSynthesizer R)
    (buffer : AudioBuffer R) (startSample : Nat) (numSamples : Int) (fx : Effect R)
    (context : AudioBlock R) :
    (s.FXType = "None" →
      (s.renderVoices m buffer startSample numSamples).2 =
          (renderVoiceList m s.toFMParams s.voices buffer startSample numSamples).2 ∧
        (s.renderVoices m buffer startSample numSamples).1.FX = s.FX) ∧
    (fx.FXType = "None" → fx.process context = (fx, context)) := by
  constructor
  · intro hs
    simp [HW4.FMSynthesizer.renderVoices, hs]
  · intro hfx
    simp [Effect.process, hfx]

/-- Witness for C16: the freshly constructed hw4 synthesizer and its effect, both of type
None. -/
theorem effect_type_none_is_pass_through_witness :
    (HW4.FMSynthesizer.new ⟨Real.sin, fun x => (2 : ℝ) ^ x, Real.pi⟩
      (44100 : ℝ)).FXType = "None" ∧
    (Effect.new ⟨Real.sin, fun x => (2 : ℝ) ^ x, Real.pi⟩ : Effect ℝ).FXType = "None" ∧
    (Effect.new ⟨Real.sin, fun x => (2 : ℝ) ^ x, Real.pi⟩ : Effect ℝ).process
        ⟨AudioBuffer.zeros 2 512, 0, 512⟩ =
      (Effect.new ⟨Real.sin, fun x => (2 : ℝ) ^ x, Real.pi⟩, ⟨AudioBuffer.zeros 2 512, 0, 512⟩) :=
  have h1 : (HW4.FMSynthesizer.new ⟨Real.sin, fun x => (2 : ℝ) ^ x, Real.pi⟩
      (44100 : ℝ)).FXType = "None" := rfl
  have h2 : (Effect.new ⟨Real.sin, fun x => (2 : ℝ) ^ x, Real.pi⟩ : Effect ℝ).FXType =
      "None" := rfl
  ⟨h1, h2, (effect_type_none_is_pass_through ⟨Real.sin, fun x => (2 : ℝ) ^ x, Real.pi⟩
    (HW4.FMSynthesizer.new ⟨Real.sin, fun x => (2 : ℝ) ^ x, Real.pi⟩ 44100)
    (AudioBuffer.zeros 2 512) 0 512 (Effect.new ⟨Real.sin, fun x => (2 : ℝ) ^ x, Real.pi⟩)
    ⟨AudioBuffer.zeros 2 512, 0, 512⟩).2 h2⟩

theorem reset_fields (fx : Effect R) (h : fx.WellFormed) :
    fx.reset.delayLines = fx.delayLines.map DelayLine.clear ∧
    fx.reset.writePointer = [0, 0] ∧ fx.reset.WellFormed := by
  obtain ⟨h1, h2, h3, h4⟩ := h
  obtain ⟨a, b, hab⟩ := List.length_eq_two.mp h1
  obtain ⟨x, y, hxy⟩ := List.length_eq_two.mp h4
  simp [Effect.reset, Effect.resetLoop, Effect.getNumChannels, Effect.WellFormed, hab, hxy,
    h2, h3]

theorem cleared_lines (l : List (DelayLine R)) :
    (∀ d ∈ l.map DelayLine.clear, ∀ x ∈ d.rawData, x = 0) ∧
      (l.map DelayLine.clear).map DelayLine.size = l.map DelayLine.size := by
  constructor
  · intro d hd x hx
    obtain ⟨d0, _, rfl⟩ := List.mem_map.mp hd
    simp [DelayLine.clear] at hx
    exact hx.2
  · simp [DelayLine.clear, DelayLine.size, Function.comp_def]

theorem reset_clears (fx : Effect R) (h : fx.WellFormed) :
    (∀ d ∈ fx.reset.delayLines, ∀ x ∈ d.rawData, x = 0) ∧
    (∀ w ∈ fx.reset.writePointer, w = 0) ∧
    fx.reset.delayLines.map DelayLine.size = fx.delayLines.map DelayLine.size := by
  obtain ⟨r1, r2, _⟩ := reset_fields fx h
  rw [r1, r2]
  refine ⟨(cleared_lines fx.delayLines).1, ?_, (cleared_lines fx.delayLines).2⟩
  intro w hw
  simpa using hw

theorem setDelayTimesLoop_lines (value : R) (n ch : Nat) (fx : Effect R) :
    (Effect.setDelayTimesLoop value n ch fx).delayLines = fx.delayLines ∧
      (Effect.setDelayTimesLoop value n ch fx).writePointer = fx.writePointer := by
  induction n generalizing ch fx with
  | zero => exact ⟨rfl, rfl⟩
  | succ n ih =>
    rw [Effect.setDelayTimesLoop]
    exact ih (ch + 1) _

/-- C17 (hw4 `FMSynthesizer::setFXType`, `setFeedback`, `setDelayTime`, `setWetDry`,
`setLFORate`, `setLFODepth`): for every effect state of the shape the C++ types give it,
after any one of the six setters every sample of every delay line is 0, every write cursor
is 0 and the delay lines have the lengths they had. -/
theorem effect_setters_clear_delay_lines (m : MathLib R) (s : HW4.FMSynthesizer R)
    (hwf : s.FX.WellFormed) (name : String) (value : R) :
    ∀ t ∈ [s.setFXType name, s.setFeedback value, s.setDelayTime value, s.setWetDry value,
        s.setLFORate m value, s.setLFODepth value],
      (∀ d ∈ t.FX.delayLines, ∀ x ∈ d.rawData, x = 0) ∧
      (∀ w ∈ t.FX.writePointer, w = 0) ∧
      t.FX.delayLines.map DelayLine.size = s.FX.delayLines.map DelayLine.size := by
  have hr := reset_clears s.FX hwf
  have hr2 := reset_clears s.FX.reset (reset_fields s.FX hwf).2.2
  intro t ht
  simp only [List.mem_cons, List.mem_singleton, List.not_mem_nil, or_false] at ht
  rcases ht with rfl | rfl | rfl | rfl | rfl | rfl
  · exact ⟨hr2.1, hr2.2.1, hr2.2.2.trans hr.2.2⟩
  · exact hr
  · have hl := setDelayTimesLoop_lines value s.FX.reset.getNumChannels 0 s.FX.reset
    simp only [HW4.FMSynthesizer.setDelayTime, Effect.setDelayTimes]
    rw [hl.1, hl.2]
    exact hr
  · exact hr
  · exact hr
  · exact hr

/-- Witness for C17: the freshly constructed hw4 synthesizer, whose effect has the shape
the C++ types give it, after `setWetDry (1/2)`. -/
theorem effect_setters_clear_delay_lines_witness :
    (HW4.FMSynthesizer.new ⟨Real.sin, fun x => (2 : ℝ) ^ x, Real.pi⟩
      (44100 : ℝ)).FX.WellFormed ∧
    ∀ w ∈ ((HW4.FMSynthesizer.new ⟨Real.sin, fun x => (2 : ℝ) ^ x, Real.pi⟩
      (44100 : ℝ)).setWetDry (1 / 2)).FX.writePointer, w = 0 :=
  have hwf : (HW4.FMSynthesizer.new ⟨Real.sin, fun x => (2 : ℝ) ^ x, Real.pi⟩
      (44100 : ℝ)).FX.WellFormed := by
    simp [HW4.FMSynthesizer.new, Effect.new, Effect.WellFormed, Effect.setMaxDelayTime,
      Effect.updateDelayLineSize, Effect.setDelayTimes, Effect.setDelayTimesLoop,
      Effect.getNumChannels, Effect.setWetDry, Effect.setFeedback, Effect.setLFORate,
      Effect.setLFODepth]
  ⟨hwf, (effect_setters_clear_delay_lines ⟨Real.sin, fun x => (2 : ℝ) ^ x, Real.pi⟩
    (HW4.FMSynthesizer.new ⟨Real.sin, fun x => (2 : ℝ) ^ x, Real.pi⟩ 44100) hwf "Chorus"
    (1 / 2) _ (by simp)).2.1⟩

/-! ### Sample-rate changes -/

/-- C18 (hw4 `Effect::setSampleRate`, `Effect::prepare`, `FMSynthesizer::setSampleRate`):
the constructed effect set to Chorus processes one sample of a mono block, which moves the
write cursor of channel 0 to 1; after a sample-rate change to 44100 Hz by `setSampleRate`,
by `prepare` or by the synthesizer's `setSampleRate` that cursor is still 1, not 0. -/
theorem sample_rate_change_keeps_write_cursor :
    ((((Effect.new ⟨Real.sin, fun x => (2 : ℝ) ^ x, Real.pi⟩).setFXType "Chorus").process
      ⟨⟨[[0]]⟩, 0, 1⟩).1.setSampleRate ⟨Real.sin, fun x => (2 : ℝ) ^ x, Real.pi⟩
        44100).writePointer = [1, 0] ∧
    ((((Effect.new ⟨Real.sin, fun x => (2 : ℝ) ^ x, Real.pi⟩).setFXType "Chorus").process
      ⟨⟨[[0]]⟩, 0, 1⟩).1.prepare (44100 : ℝ)).writePointer = [1, 0] ∧
    (HW4.FMSynthesizer.setSampleRate ⟨Real.sin, fun x => (2 : ℝ) ^ x, Real.pi⟩
      ((((HW4.FMSynthesizer.new ⟨Real.sin, fun x => (2 : ℝ) ^ x, Real.pi⟩
        (44100 : ℝ)).setFXType "Chorus").renderVoices
          ⟨Real.sin, fun x => (2 : ℝ) ^ x, Real.pi⟩ ⟨[[0]]⟩ 0 1).1)
      44100).FX.writePointer = [1, 0] := by
  refine ⟨?_, ?_, ?_⟩ <;>
  simp [Effect.new, Effect.setFXType, Effect.setFeedback, Effect.setWetDry, Effect.setDelayTimes,
    Effect.setDelayTimesLoop, Effect.reset, Effect.resetLoop, Effect.process, Effect.channelLoop,
    Effect.chorusSampleLoop, Effect.getNumChannels, Effect.setMaxDelayTime, Effect.setLFORate,
    Effect.setLFODepth, Effect.updateDelayLineSize, Effect.setSampleRate, Effect.prepare,
    AudioBlock.getNumChannels, AudioBuffer.getNumChannels, AudioBlock.getSample,
    AudioBlock.setSample, AudioBuffer.getSample, HW4.FMSynthesizer.new,
    HW4.FMSynthesizer.setFXType, HW4.FMSynthesizer.setSampleRate,
    HW4.FMSynthesizer.renderVoices, renderVoiceList, FMVoice.renderNextBlock, FMVoice.new] <;>
  norm_num

/-- C19 (hw4 `Effect::setSampleRate`, `Effect::prepare`): on the constructed effect (48000
Hz, maximum delay 2 s, delay lines of 96000 samples), `setSampleRate (96000)` leaves both
delay lines at 96000 samples although `ceil (maxDelayTime * sampleRate)` is now 192000; and
`prepare` at 44100 Hz leaves `maxDelaySample` at 96000 although `maxDelayTime * sampleRate`
is now 88200. -/
theorem setSampleRate_and_prepare_update_only_half :
    ((Effect.new ⟨Real.sin, fun x => (2 : ℝ) ^ x, Real.pi⟩).setSampleRate
      ⟨Real.sin, fun x => (2 : ℝ) ^ x, Real.pi⟩ 96000).delayLines.map DelayLine.size =
        [96000, 96000] ∧
    ⌈((Effect.new ⟨Real.sin, fun x => (2 : ℝ) ^ x, Real.pi⟩).setSampleRate
        ⟨Real.sin, fun x => (2 : ℝ) ^ x, Real.pi⟩ 96000).maxDelayTime *
      ((Effect.new ⟨Real.sin, fun x => (2 : ℝ) ^ x, Real.pi⟩).setSampleRate
        ⟨Real.sin, fun x => (2 : ℝ) ^ x, Real.pi⟩ 96000).sampleRate⌉₊ = 192000 ∧
    ((Effect.new ⟨Real.sin, fun x => (2 : ℝ) ^ x, Real.pi⟩).prepare
      (44100 : ℝ)).maxDelaySample = 96000 ∧
    ((Effect.new ⟨Real.sin, fun x => (2 : ℝ) ^ x, Real.pi⟩).prepare
        (44100 : ℝ)).maxDelayTime *
      ((Effect.new ⟨Real.sin, fun x => (2 : ℝ) ^ x, Real.pi⟩).prepare
        (44100 : ℝ)).sampleRate = 88200 := by
  refine ⟨?_, ?_, ?_, ?_⟩ <;>
  simp [Effect.new, Effect.setFeedback, Effect.setWetDry, Effect.setDelayTimes,
    Effect.setDelayTimesLoop, Effect.getNumChannels, Effect.setMaxDelayTime, Effect.setLFORate,
    Effect.setLFODepth, Effect.updateDelayLineSize, Effect.setSampleRate, Effect.prepare,
    DelayLine.size, DelayLine.resize] <;>
  norm_num

/-! ### Delay-line indices -/

theorem map_size_modify_push (l : List (DelayLine R)) (ch i : Nat) (x : R) :
    (l.modify (fun d => d.push i x) ch).map DelayLine.size = l.map DelayLine.size := by
  induction l generalizing ch with
  | nil => simp
  | cons a l ih =>
    cases ch with
    | zero => simp [DelayLine.push, DelayLine.size]
    | succ c => simp [ih c]

theorem getD_set_self (l : List Nat) (ch a : Nat) (h : ch < l.length) :
    (l.set ch a).getD ch 0 = a := by
  simp [List.getD_eq_getElem?_getD, List.getElem?_set, h]

theorem size_getD_eq_getD_map (l : List (DelayLine R)) (c : Nat) :
    (l.getD c ⟨[]⟩).size = (l.map DelayLine.size).getD c 0 := by
  simp only [List.getD_eq_getElem?_getD, List.getElem?_map]
  cases l[c]? <;> simp [DelayLine.size]

theorem chorusSampleLoop_cursor (ch n : Nat) (i w : Nat) (fx : Effect R) (block : AudioBlock R)
    (hw : fx.writePointer.getD ch 0 = w) (hlen : ch < fx.writePointer.length)
    (hlt : ((w + n : Nat) : R) < fx.maxDelaySample) :
    (Effect.chorusSampleLoop ch n i fx block).1.writePointer.getD ch 0 = w + n ∧
    (Effect.chorusSampleLoop ch n i fx block).1.delayLines.map DelayLine.size =
      fx.delayLines.map DelayLine.size ∧
    (Effect.chorusSampleLoop ch n i fx block).1.FXType = fx.FXType ∧
    (Effect.chorusSampleLoop ch n i fx block).1.delayTimes = fx.delayTimes := by
  induction n generalizing i w fx block with
  | zero => exact ⟨hw, rfl, rfl, rfl⟩
  | succ n ih =>
    have hno : ¬ (((fx.writePointer.set ch (fx.writePointer.getD ch 0 + 1)).getD ch 0 : Nat) : R)
        ≥ fx.maxDelaySample := by
      rw [getD_set_self _ _ _ hlen, hw, not_le]
      refine lt_of_le_of_lt ?_ hlt
      exact_mod_cast (by omega : w + 1 ≤ w + (n + 1))
    rw [Effect.chorusSampleLoop]
    simp only [if_neg hno]
    obtain ⟨a1, a2, a3, a4⟩ := ih (i + 1) (w + 1)
      { delayLines := List.modify (fun dline => dline.push (fx.writePointer.getD ch 0) 0) ch
          fx.delayLines,
        delayTimes := fx.delayTimes, feedback := fx.feedback, wetDry := fx.wetDry,
        sampleRate := fx.sampleRate, maxDelayTime := fx.maxDelayTime,
        maxDelaySample := fx.maxDelaySample, LFORate := fx.LFORate, LFODepth := fx.LFODepth,
        LFOPhase := fx.LFOPhase.set ch 0, LFOPhaseIncrement := fx.LFOPhaseIncrement,
        FXType := fx.FXType, readPointer := 0, staticReadPointer := fx.staticReadPointer,
        variableReadPointer := fx.variableReadPointer,
        writePointer := fx.writePointer.set ch (fx.writePointer.getD ch 0 + 1) }
      (block.setSample ch i
        (if fx.wetDry * block.getSample ch i > 1 then 1 else fx.wetDry * block.getSample ch i))
      (by
        show (fx.writePointer.set ch (fx.writePointer.getD ch 0 + 1)).getD ch 0 = w + 1
        rw [getD_set_self _ _ _ hlen, hw])
      (by
        show ch < (fx.writePointer.set ch (fx.writePointer.getD ch 0 + 1)).length
        rw [List.length_set]; exact hlen)
      (by
        show ((w + 1 + n : Nat) : R) < fx.maxDelaySample
        rw [show w + 1 + n = w + (n + 1) by omega]; exact hlt)
    refine ⟨by rw [a1]; omega, ?_, a3, a4⟩
    rw [a2]
    exact map_size_modify_push fx.delayLines ch _ 0

theorem process_chorus_mono (fx : Effect R) (buf : AudioBuffer R) (s n : Nat)
    (hT : fx.FXType = "Chorus") (hD : fx.delayTimes.getD 0 0 > 0)
    (hch : buf.getNumChannels = 1) :
    fx.process ⟨buf, s, n⟩ = Effect.chorusSampleLoop 0 n 0 fx ⟨buf, s, n⟩ := by
  unfold Effect.process
  rw [if_pos hD]
  simp [hT, AudioBlock.getNumChannels, hch, Effect.channelLoop]

theorem chorus_mono_block_cursor (fx : Effect R) (buf : AudioBuffer R) (s n : Nat)
    (hT : fx.FXType = "Chorus") (hD : fx.delayTimes.getD 0 0 > 0)
    (hch : buf.getNumChannels = 1) (hW : fx.writePointer.getD 0 0 = 0)
    (hlen : 0 < fx.writePointer.length) (hM : ((0 + n : Nat) : R) < fx.maxDelaySample) :
    (fx.process ⟨buf, s, n⟩).1.writePointer.getD 0 0 = n ∧
      ((fx.process ⟨buf, s, n⟩).1.delayLines.getD 0 ⟨[]⟩).size =
        (fx.delayLines.getD 0 ⟨[]⟩).size ∧
      (fx.process ⟨buf, s, n⟩).1.FXType = "Chorus" ∧
      (fx.process ⟨buf, s, n⟩).1.delayTimes.getD 0 0 > 0 := by
  rw [process_chorus_mono fx buf s n hT hD hch]
  obtain ⟨a1, a2, a3, a4⟩ := chorusSampleLoop_cursor 0 n 0 0 fx ⟨buf, s, n⟩ hW hlen hM
  refine ⟨by rw [a1]; omega, ?_, by rw [a3]; exact hT, by rw [a4]; exact hD⟩
  rw [size_getD_eq_getD_map, a2, ← size_getD_eq_getD_map]

/-- C20 (hw4 `Effect::process`, Chorus branch, after `Effect::setSampleRate`): the
constructed effect (delay lines of 96000 samples) after `setSampleRate (96000)` and
`setFXType ("Chorus")` starts with the write cursor of channel 0 inside its delay line; after
processing a mono block of 96000 samples the cursor is 96000, the length of the delay line,
so the next `dline.push (writePointer[ch], 0)` of a Chorus block is outside the delay line. -/
theorem chorus_after_setSampleRate_pushes_outside_delay_line :
    (((Effect.new ⟨Real.sin, fun x => (2 : ℝ) ^ x, Real.pi⟩).setSampleRate
      ⟨Real.sin, fun x => (2 : ℝ) ^ x, Real.pi⟩ 96000).setFXType "Chorus").pushInBounds 0 ∧
    ((((Effect.new ⟨Real.sin, fun x => (2 : ℝ) ^ x, Real.pi⟩).setSampleRate
      ⟨Real.sin, fun x => (2 : ℝ) ^ x, Real.pi⟩ 96000).setFXType "Chorus").process
        ⟨AudioBuffer.zeros 1 96000, 0, 96000⟩).1.writePointer.getD 0 0 = 96000 ∧
    (((((Effect.new ⟨Real.sin, fun x => (2 : ℝ) ^ x, Real.pi⟩).setSampleRate
      ⟨Real.sin, fun x => (2 : ℝ) ^ x, Real.pi⟩ 96000).setFXType "Chorus").process
        ⟨AudioBuffer.zeros 1 96000, 0, 96000⟩).1.delayLines.getD 0 ⟨[]⟩).size = 96000 ∧
    ¬ ((((Effect.new ⟨Real.sin, fun x => (2 : ℝ) ^ x, Real.pi⟩).setSampleRate
      ⟨Real.sin, fun x => (2 : ℝ) ^ x, Real.pi⟩ 96000).setFXType "Chorus").process
        ⟨AudioBuffer.zeros 1 96000, 0, 96000⟩).1.pushInBounds 0 ∧
    ((((Effect.new ⟨Real.sin, fun x => (2 : ℝ) ^ x, Real.pi⟩).setSampleRate
      ⟨Real.sin, fun x => (2 : ℝ) ^ x, Real.pi⟩ 96000).setFXType "Chorus").process
        ⟨AudioBuffer.zeros 1 96000, 0, 96000⟩).1.FXType = "Chorus" ∧
    ((((Effect.new ⟨Real.sin, fun x => (2 : ℝ) ^ x, Real.pi⟩).setSampleRate
      ⟨Real.sin, fun x => (2 : ℝ) ^ x, Real.pi⟩ 96000).setFXType "Chorus").process
        ⟨AudioBuffer.zeros 1 96000, 0, 96000⟩).1.delayTimes.getD 0 0 > 0 := by
  have hT : (((Effect.new ⟨Real.sin, fun x => (2 : ℝ) ^ x, Real.pi⟩).setSampleRate
      ⟨Real.sin, fun x => (2 : ℝ) ^ x, Real.pi⟩ 96000).setFXType "Chorus").FXType =
        "Chorus" := rfl
  have hD : (((Effect.new ⟨Real.sin, fun x => (2 : ℝ) ^ x, Real.pi⟩).setSampleRate
      ⟨Real.sin, fun x => (2 : ℝ) ^ x, Real.pi⟩ 96000).setFXType "Chorus").delayTimes.getD
        0 0 > 0 := by
    simp [Effect.new, Effect.setFXType, Effect.setFeedback, Effect.setWetDry,
      Effect.setDelayTimes, Effect.setDelayTimesLoop, Effect.reset, Effect.resetLoop,
      Effect.getNumChannels, Effect.setMaxDelayTime, Effect.setLFORate, Effect.setLFODepth,
      Effect.updateDelayLineSize, Effect.setSampleRate]
  have hch : (AudioBuffer.zeros 1 96000 : AudioBuffer ℝ).getNumChannels = 1 := by
    simp only [AudioBuffer.zeros, AudioBuffer.getNumChannels, List.length_replicate]
  have hWP : (((Effect.new ⟨Real.sin, fun x => (2 : ℝ) ^ x, Real.pi⟩).setSampleRate
      ⟨Real.sin, fun x => (2 : ℝ) ^ x, Real.pi⟩ 96000).setFXType "Chorus").writePointer =
        [0, 0] := by
    simp [Effect.new, Effect.setFXType, Effect.setFeedback, Effect.setWetDry,
      Effect.setDelayTimes, Effect.setDelayTimesLoop, Effect.reset, Effect.resetLoop,
      Effect.getNumChannels, Effect.setMaxDelayTime, Effect.setLFORate, Effect.setLFODepth,
      Effect.updateDelayLineSize, Effect.setSampleRate]
  have hM : (((0 + 96000 : Nat) : ℝ)) <
      (((Effect.new ⟨Real.sin, fun x => (2 : ℝ) ^ x, Real.pi⟩).setSampleRate
        ⟨Real.sin, fun x => (2 : ℝ) ^ x, Real.pi⟩ 96000).setFXType "Chorus").maxDelaySample := by
    have e : (((Effect.new ⟨Real.sin, fun x => (2 : ℝ) ^ x, Real.pi⟩).setSampleRate
        ⟨Real.sin, fun x => (2 : ℝ) ^ x, Real.pi⟩ 96000).setFXType
          "Chorus").maxDelaySample = 96000 * 2 := rfl
    rw [e]
    norm_num
  have hS : ((((Effect.new ⟨Real.sin, fun x => (2 : ℝ) ^ x, Real.pi⟩).setSampleRate
      ⟨Real.sin, fun x => (2 : ℝ) ^ x, Real.pi⟩ 96000).setFXType "Chorus").delayLines.getD 0
        ⟨[]⟩).size = 96000 := by
    norm_num [Effect.new, Effect.setFXType, Effect.setFeedback, Effect.setWetDry,
      Effect.setDelayTimes, Effect.setDelayTimesLoop, Effect.reset, Effect.resetLoop,
      Effect.getNumChannels, Effect.setMaxDelayTime, Effect.setLFORate, Effect.setLFODepth,
      Effect.updateDelayLineSize, Effect.setSampleRate, DelayLine.size, DelayLine.resize,
      DelayLine.clear]
  obtain ⟨c1, c2, c3, c4⟩ := chorus_mono_block_cursor _ (AudioBuffer.zeros 1 96000) 0 96000
    hT hD hch (by rw [hWP]; rfl) (by rw [hWP]; decide) hM
  refine ⟨?_, c1, by rw [c2, hS], ?_, c3, c4⟩
  · unfold Effect.pushInBounds
    rw [hWP, hS]
    decide
  · unfold Effect.pushInBounds
    rw [c1, c2, hS]
    decide

/-! ### Input validation -/

/-- C21, as stated, fails (hw3 and hw4 FM parameter setters): on the freshly constructed
synthesizers `setCarrierAttackTime (-1)` stores -1, not 0, `setModulatorAmplitude (-1)`
stores -1, not 0, and `setCarrierSustainLevel (2)` stores 2, not 1. -/
theorem fm_setters_store_out_of_range_values :
    ((HW3.FMSynthesizer.new (44100 : ℚ)).setCarrierAttackTime (-1)).carrierAttackTime = -1 ∧
    ((HW3.FMSynthesizer.new (44100 : ℚ)).setCarrierAttackTime (-1)).carrierAttackTime ≠ 0 ∧
    ((HW3.FMSynthesizer.new (44100 : ℚ)).setModulatorAmplitude (-1)).modulatorAmplitude ≠ 0 ∧
    ((HW3.FMSynthesizer.new (44100 : ℚ)).setCarrierSustainLevel 2).carrierSustainLevel ≠ 1 ∧
    ((HW4.FMSynthesizer.new ⟨Real.sin, fun x => (2 : ℝ) ^ x, Real.pi⟩
      (44100 : ℝ)).setCarrierAttackTime (-1)).carrierAttackTime = -1 ∧
    ((HW4.FMSynthesizer.new ⟨Real.sin, fun x => (2 : ℝ) ^ x, Real.pi⟩
      (44100 : ℝ)).setCarrierSustainLevel 2).carrierSustainLevel ≠ 1 := by
  refine ⟨rfl, ?_, ?_, ?_, rfl, ?_⟩ <;>
  norm_num [HW3.FMSynthesizer.setCarrierAttackTime, HW3.FMSynthesizer.setModulatorAmplitude,
    HW3.FMSynthesizer.setCarrierSustainLevel, HW4.FMSynthesizer.setCarrierSustainLevel]

/-- C21, amended (hw3 and hw4 FM parameter setters): each of the eleven FM parameter setters
stores the value it is given, whatever the value; nothing is clamped. -/
theorem fm_setters_store_the_given_value (s3 : HW3.FMSynthesizer R) (s4 : HW4.FMSynthesizer R)
    (value : R) :
    (s3.setCarrierAmplitude value).carrierAmplitude = value ∧
    (s3.setCarrierAttackTime value).carrierAttackTime = value ∧
    (s3.setCarrierDecayTime value).carrierDecayTime = value ∧
    (s3.setCarrierSustainLevel value).carrierSustainLevel = value ∧
    (s3.setCarrierReleaseTime value).carrierReleaseTime = value ∧
    (s3.setModulatorAmplitude value).modulatorAmplitude = value ∧
    (s3.setModulatorFreqRatio value).modulatorFreqRatio = value ∧
    (s3.setModulatorAttackTime value).modulatorAttackTime = value ∧
    (s3.setModulatorDecayTime value).modulatorDecayTime = value ∧
    (s3.setModulatorSustainLevel value).modulatorSustainLevel = value ∧
    (s3.setModulatorReleaseTime value).modulatorReleaseTime = value ∧
    (s4.setCarrierAmplitude value).carrierAmplitude = value ∧
    (s4.setCarrierAttackTime value).carrierAttackTime = value ∧
    (s4.setCarrierDecayTime value).carrierDecayTime = value ∧
    (s4.setCarrierSustainLevel value).carrierSustainLevel = value ∧
    (s4.setCarrierReleaseTime value).carrierReleaseTime = value ∧
    (s4.setModulatorAmplitude value).modulatorAmplitude = value ∧
    (s4.setModulatorFreqRatio value).modulatorFreqRatio = value ∧
    (s4.setModulatorAttackTime value).modulatorAttackTime = value ∧
    (s4.setModulatorDecayTime value).modulatorDecayTime = value ∧
    (s4.setModulatorSustainLevel value).modulatorSustainLevel = value ∧
    (s4.setModulatorReleaseTime value).modulatorReleaseTime = value :=
  ⟨rfl, rfl, rfl, rfl, rfl, rfl, rfl, rfl, rfl, rfl, rfl, rfl, rfl, rfl, rfl, rfl, rfl, rfl,
    rfl, rfl, rfl, rfl⟩

/-- C23, as stated, fails (hw3 and hw4 `FMVoice::startNote`): on a new, idle voice at 44100
Hz, `startNote (128, 1)` changes the level from 0 to 0.15 and leaves the voice not idle. -/
theorem startNote_128_changes_idle_voice :
    (FMVoice.new (44100 : ℝ)).isIdle ∧ (FMVoice.new (44100 : ℝ)).level = 0 ∧
    ((FMVoice.new (44100 : ℝ)).startNote ⟨Real.sin, fun x => (2 : ℝ) ^ x, Real.pi⟩ 128
      1).level = 15 / 100 ∧
    ¬ ((FMVoice.new (44100 : ℝ)).startNote ⟨Real.sin, fun x => (2 : ℝ) ^ x, Real.pi⟩ 128
      1).isIdle := by
  have hp : ∀ x : ℝ, (2 : ℝ) ^ x ≠ 0 := fun x =>
    (Real.rpow_pos_of_pos (by norm_num) x).ne'
  refine ⟨rfl, rfl, ?_, ?_⟩
  · simp [FMVoice.startNote]
  · simp [FMVoice.isIdle, FMVoice.startNote, getMidiNoteInHertz, FMVoice.new,
      Real.pi_ne_zero, hp]

/-- C23, amended (hw3 and hw4 `FMVoice::startNote`): `startNote` checks no range.  For a
note number outside 0..127, as for any other, it sets the phase and the elapsed time to 0,
the level to `0.15 * velocity` and the phase increment to `2 * pi * f / sampleRate` with `f`
the frequency `getMidiNoteInHertz` gives for that number; when `f`, `pi` and the sample
rate are not 0 the voice is sounding afterwards, whatever it was before. -/
theorem startNote_out_of_range_note_starts_voice (m : MathLib R) (v : FMVoice R)
    (midiNoteNumber : Int) (velocity : R) (hout : midiNoteNumber < 0 ∨ 127 < midiNoteNumber)
    (hf : getMidiNoteInHertz m midiNoteNumber ≠ 0) (hpi : m.pi ≠ 0)
    (hsr : v.sampleRate ≠ 0) :
    (v.startNote m midiNoteNumber velocity).isSounding ∧
    (v.startNote m midiNoteNumber velocity).currentAngle = 0 ∧
    (v.startNote m midiNoteNumber velocity).currentTime = 0 ∧
    (v.startNote m midiNoteNumber velocity).level = 15 / 100 * velocity ∧
    (v.startNote m midiNoteNumber velocity).angleDelta =
      2 * m.pi * getMidiNoteInHertz m midiNoteNumber / v.sampleRate := by
  refine ⟨⟨?_, rfl⟩, rfl, rfl, ?_, ?_⟩
  · simp [FMVoice.startNote, hf, hpi, hsr]
  · simp only [FMVoice.startNote]
    ring
  · simp only [FMVoice.startNote]
    ring

/-- Witness for C23, amended: note 128 on a new voice at 44100 Hz with the real math
library. -/
theorem startNote_out_of_range_note_starts_voice_witness :
    ((128 : Int) < 0 ∨ 127 < (128 : Int)) ∧
    getMidiNoteInHertz ⟨Real.sin, fun x => (2 : ℝ) ^ x, Real.pi⟩ 128 ≠ 0 ∧
    ((FMVoice.new (44100 : ℝ)).startNote ⟨Real.sin, fun x => (2 : ℝ) ^ x, Real.pi⟩ 128
      1).isSounding :=
  have h1 : ((128 : Int) < 0 ∨ 127 < (128 : Int)) := by decide
  have h2 : getMidiNoteInHertz ⟨Real.sin, fun x => (2 : ℝ) ^ x, Real.pi⟩ 128 ≠ 0 := by
    have hp : ∀ x : ℝ, (2 : ℝ) ^ x ≠ 0 := fun x =>
      (Real.rpow_pos_of_pos (by norm_num) x).ne'
    simp [getMidiNoteInHertz, hp]
  have h3 : (FMVoice.new (44100 : ℝ)).sampleRate ≠ 0 := by
    simp [FMVoice.new]
  ⟨h1, h2, (startNote_out_of_range_note_starts_voice
    ⟨Real.sin, fun x => (2 : ℝ) ^ x, Real.pi⟩ (FMVoice.new 44100) 128 1 h1 h2
    Real.pi_ne_zero h3).1⟩

/-! ### The write cursor -/

/-- C24 (hw4 `Effect::process`, Delay and Flanger branches): on the constructed effect
(delay time 0.1 s, delay lines of 96000 samples), reset by `setFXType`, processing one
sample of a mono block leaves the write cursor of channel 0 at 0 in the Delay and in the
Flanger mode, where `1 mod 96000 = 1` is asked for; only the Chorus branch moves it to 1. -/
theorem delay_and_flanger_leave_write_cursor :
    (((Effect.new ⟨Real.sin, fun x => (2 : ℝ) ^ x, Real.pi⟩).setFXType "Delay").process
      ⟨⟨[[1 / 2]]⟩, 0, 1⟩).1.writePointer.getD 0 0 = 0 ∧
    (((Effect.new ⟨Real.sin, fun x => (2 : ℝ) ^ x, Real.pi⟩).setFXType "Flanger").process
      ⟨⟨[[1 / 2]]⟩, 0, 1⟩).1.writePointer.getD 0 0 = 0 ∧
    (((Effect.new ⟨Real.sin, fun x => (2 : ℝ) ^ x, Real.pi⟩).setFXType "Chorus").process
      ⟨⟨[[1 / 2]]⟩, 0, 1⟩).1.writePointer.getD 0 0 = 1 := by
  refine ⟨?_, ?_, ?_⟩ <;>
  simp [Effect.new, Effect.setFXType, Effect.setFeedback, Effect.setWetDry,
    Effect.setDelayTimes, Effect.setDelayTimesLoop, Effect.reset, Effect.resetLoop,
    Effect.process, Effect.channelLoop, Effect.delaySampleLoop, Effect.chorusSampleLoop,
    Effect.flangerSampleLoop, Effect.getNumChannels, Effect.setMaxDelayTime, Effect.setLFORate,
    Effect.setLFODepth, Effect.updateDelayLineSize, AudioBlock.getNumChannels,
    AudioBuffer.getNumChannels, AudioBlock.getSample, AudioBlock.setSample,
    AudioBuffer.getSample] <;>
  norm_num

/-! ### What the effect block computes -/

theorem getCurrentSample_params (m : MathLib R) (v : FMVoice R) (p q : FMParams R)
    (isRelease : Bool) : v.getCurrentSample m p isRelease = v.getCurrentSample m q isRelease :=
  rfl

theorem sustainLoop_params (m : MathLib R) (p q : FMParams R) (n : Nat) (v : FMVoice R)
    (buf : AudioBuffer R) (s : Nat) :
    FMVoice.sustainLoop m p n v buf s = FMVoice.sustainLoop m q n v buf s := by
  induction n generalizing v buf s with
  | zero => rfl
  | succ n ih =>
    rw [FMVoice.sustainLoop, FMVoice.sustainLoop]
    exact ih _ _ _

theorem tailOffLoop_params (m : MathLib R) (p q : FMParams R)
    (h : p.carrierReleaseTime = q.carrierReleaseTime) (n : Nat) (v : FMVoice R)
    (buf : AudioBuffer R) (s : Nat) :
    FMVoice.tailOffLoop m p n v buf s = FMVoice.tailOffLoop m q n v buf s := by
  induction n generalizing v buf s with
  | zero => rfl
  | succ n ih =>
    by_cases hb : p.carrierReleaseTime < v.currentTime + 1 / v.sampleRate
    · rw [tailOffLoop_succ_break m p n v buf s hb,
        tailOffLoop_succ_break m q n v buf s (h ▸ hb)]
    · rw [tailOffLoop_succ_continue m p n v buf s hb,
        tailOffLoop_succ_continue m q n v buf s (h ▸ hb), ih]

/-- C27 (hw3 and hw4 `FMVoice::getCurrentSample`, `renderNextBlock`): for every voice,
buffer, start position and sample count, two parameter sets give the same voice and the
same buffer when the voice is sounding, and when the voice is releasing they do so if they
agree on `carrierReleaseTime`. -/
theorem renderNextBlock_ignores_fm_parameters (m : MathLib R) (v : FMVoice R)
    (buf : AudioBuffer R) (startSample : Nat) (numSamples : Int) (p q : FMParams R) :
    (v.isSounding →
      v.renderNextBlock m buf startSample numSamples p =
        v.renderNextBlock m buf startSample numSamples q) ∧
    (v.isReleasing → p.carrierReleaseTime = q.carrierReleaseTime →
      v.renderNextBlock m buf startSample numSamples p =
        v.renderNextBlock m buf startSample numSamples q) := by
  constructor
  · intro hs
    have ht : ¬ v.tailOff > 0 := by rw [hs.2]; exact lt_irrefl 0
    simp only [FMVoice.renderNextBlock, if_pos hs.1, if_neg ht]
    exact sustainLoop_params m p q _ v buf startSample
  · intro hr h
    simp only [FMVoice.renderNextBlock, if_pos hr.1, if_pos hr.2]
    exact tailOffLoop_params m p q h _ v buf startSample

/-- Witness for C27: at 44100 Hz the voice after `startNote (69, 1)`, which is sounding, and
after `stopNote` with tail-off, which is releasing; the default parameters against carrier
amplitude 5. -/
theorem renderNextBlock_ignores_fm_parameters_witness :
    ((FMVoice.new (44100 : ℝ)).startNote ⟨Real.sin, fun x => (2 : ℝ) ^ x, Real.pi⟩ 69
      1).isSounding ∧
    (((FMVoice.new (44100 : ℝ)).startNote ⟨Real.sin, fun x => (2 : ℝ) ^ x, Real.pi⟩ 69
      1).stopNote true).isReleasing ∧
    (FMParams.default : FMParams ℝ).carrierReleaseTime =
      ({ FMParams.default with carrierAmplitude := 5 } : FMParams ℝ).carrierReleaseTime ∧
    ((FMVoice.new (44100 : ℝ)).startNote ⟨Real.sin, fun x => (2 : ℝ) ^ x, Real.pi⟩ 69
      1).renderNextBlock ⟨Real.sin, fun x => (2 : ℝ) ^ x, Real.pi⟩ (AudioBuffer.zeros 2 512) 0
        512 FMParams.default =
      ((FMVoice.new (44100 : ℝ)).startNote ⟨Real.sin, fun x => (2 : ℝ) ^ x, Real.pi⟩ 69
        1).renderNextBlock ⟨Real.sin, fun x => (2 : ℝ) ^ x, Real.pi⟩ (AudioBuffer.zeros 2 512)
          0 512 { FMParams.default with carrierAmplitude := 5 } ∧
    (((FMVoice.new (44100 : ℝ)).startNote ⟨Real.sin, fun x => (2 : ℝ) ^ x, Real.pi⟩ 69
      1).stopNote true).renderNextBlock ⟨Real.sin, fun x => (2 : ℝ) ^ x, Real.pi⟩
        (AudioBuffer.zeros 2 512) 0 512 FMParams.default =
      (((FMVoice.new (44100 : ℝ)).startNote ⟨Real.sin, fun x => (2 : ℝ) ^ x, Real.pi⟩ 69
        1).stopNote true).renderNextBlock ⟨Real.sin, fun x => (2 : ℝ) ^ x, Real.pi⟩
          (AudioBuffer.zeros 2 512) 0 512 { FMParams.default with carrierAmplitude := 5 } :=
  have h1 : ((FMVoice.new (44100 : ℝ)).startNote ⟨Real.sin, fun x => (2 : ℝ) ^ x, Real.pi⟩ 69
      1).isSounding := by
    simp [FMVoice.isSounding, FMVoice.startNote, getMidiNoteInHertz, FMVoice.new,
      Real.pi_ne_zero]
  have h2 : (((FMVoice.new (44100 : ℝ)).startNote ⟨Real.sin, fun x => (2 : ℝ) ^ x, Real.pi⟩
      69 1).stopNote true).isReleasing := by
    simp [FMVoice.isReleasing, FMVoice.stopNote, FMVoice.startNote, getMidiNoteInHertz,
      FMVoice.new, Real.pi_ne_zero]
  have h3 : (FMParams.default : FMParams ℝ).carrierReleaseTime =
      ({ FMParams.default with carrierAmplitude := 5 } : FMParams ℝ).carrierReleaseTime := rfl
  ⟨h1, h2, h3,
    (renderNextBlock_ignores_fm_parameters ⟨Real.sin, fun x => (2 : ℝ) ^ x, Real.pi⟩ _
      (AudioBuffer.zeros 2 512) 0 512 FMParams.default
      { FMParams.default with carrierAmplitude := 5 }).1 h1,
    (renderNextBlock_ignores_fm_parameters ⟨Real.sin, fun x => (2 : ℝ) ^ x, Real.pi⟩ _
      (AudioBuffer.zeros 2 512) 0 512 FMParams.default
      { FMParams.default with carrierAmplitude := 5 }).2 h2 h3⟩

theorem sustainLoop_add (m : MathLib R) (p : FMParams R) (n k : Nat) (v : FMVoice R)
    (buf : AudioBuffer R) (s : Nat) :
    FMVoice.sustainLoop m p (n + k) v buf s =
      FMVoice.sustainLoop m p k (FMVoice.sustainLoop m p n v buf s).1
        (FMVoice.sustainLoop m p n v buf s).2 (s + n) := by
  induction n generalizing v buf s with
  | zero => simp [FMVoice.sustainLoop]
  | succ n ih =>
    rw [show n + 1 + k = (n + k) + 1 by omega, FMVoice.sustainLoop, ih,
      FMVoice.sustainLoop, show s + 1 + n = s + (n + 1) by omega]

theorem tailOffLoop_add (m : MathLib R) (p : FMParams R) (n k : Nat) (v : FMVoice R)
    (buf : AudioBuffer R) (s : Nat) (hd : v.angleDelta ≠ 0) (ht : v.tailOff > 0) :
    (FMVoice.tailOffLoop m p n v buf s).1.renderNextBlock m
        (FMVoice.tailOffLoop m p n v buf s).2 (s + n) (k : Int) p =
      FMVoice.tailOffLoop m p (n + k) v buf s := by
  induction n generalizing v buf s with
  | zero =>
    rw [FMVoice.tailOffLoop, Nat.zero_add, Nat.add_zero]
    exact renderNextBlock_releasing m p k v buf s hd ht
  | succ n ih =>
    rw [show n + 1 + k = (n + k) + 1 by omega]
    by_cases hb : p.carrierReleaseTime < v.currentTime + 1 / v.sampleRate
    · rw [tailOffLoop_succ_break m p n v buf s hb, tailOffLoop_succ_break m p (n + k) v buf s hb]
      refine renderNextBlock_idle m _ ?_ _ _ _ _
      exact rfl
    · rw [tailOffLoop_succ_continue m p n v buf s hb,
        tailOffLoop_succ_continue m p (n + k) v buf s hb,
        show s + (n + 1) = s + 1 + n by omega]
      exact ih _ _ _ hd ht

/-- C28 (hw3 and hw4 `FMVoice::renderNextBlock`): for every voice state, parameter set,
buffer and start position, rendering `n` samples and then `k` samples where the first block
ended gives the same voice and the same buffer as rendering `n + k` samples in one call. -/
theorem renderNextBlock_two_blocks_equal_one (m : MathLib R) (v : FMVoice R)
    (buf : AudioBuffer R) (startSample n k : Nat) (p : FMParams R) :
    (v.renderNextBlock m buf startSample (n : Int) p).1.renderNextBlock m
        (v.renderNextBlock m buf startSample (n : Int) p).2 (startSample + n) (k : Int) p =
      v.renderNextBlock m buf startSample ((n : Int) + (k : Int)) p := by
  rw [← Nat.cast_add]
  by_cases hd : v.angleDelta = 0
  · rw [renderNextBlock_idle m v hd, renderNextBlock_idle m v hd, renderNextBlock_idle m v hd]
  · by_cases ht : v.tailOff > 0
    · rw [renderNextBlock_releasing m p n v buf startSample hd ht,
        renderNextBlock_releasing m p (n + k) v buf startSample hd ht]
      exact tailOffLoop_add m p n k v buf startSample hd ht
    · obtain ⟨h1, h2, _, _, _⟩ := sustainLoop_voice m p n v buf startSample
      rw [renderNextBlock_sounding m p n v buf startSample hd ht,
        renderNextBlock_sounding m p (n + k) v buf startSample hd ht,
        renderNextBlock_sounding m p k _ _ _ (by rw [h1]; exact hd) (by rw [h2]; exact ht),
        sustainLoop_add]

theorem tailOffLoop_tailOff (m : MathLib R) (p : FMParams R) (n : Nat) (v : FMVoice R)
    (buf : AudioBuffer R) (s : Nat) :
    (FMVoice.tailOffLoop m p n v buf s).1.tailOff = v.tailOff := by
  induction n generalizing v buf s with
  | zero => rfl
  | succ n ih =>
    by_cases hb : p.carrierReleaseTime < v.currentTime + 1 / v.sampleRate
    · rw [tailOffLoop_succ_break m p n v buf s hb]
    · rw [tailOffLoop_succ_continue m p n v buf s hb, ih]

theorem renderNextBlock_tailOff (m : MathLib R) (v : FMVoice R) (buf : AudioBuffer R)
    (s : Nat) (n : Int) (p : FMParams R) :
    (v.renderNextBlock m buf s n p).1.tailOff = v.tailOff := by
  unfold FMVoice.renderNextBlock
  split
  · split
    · exact tailOffLoop_tailOff m p _ v buf s
    · exact (sustainLoop_voice m p _ v buf s).2.1
  · rfl

theorem renderCalls_tailOff (m : MathLib R) (calls : List (Nat × Int × FMParams R))
    (v : FMVoice R) (buf : AudioBuffer R) :
    (FMVoice.renderCalls m calls v buf).1.tailOff = v.tailOff := by
  induction calls generalizing v buf with
  | nil => rfl
  | cons c cs ih => rw [FMVoice.renderCalls, ih, renderNextBlock_tailOff]

/-- C29 (hw3 and hw4 `FMVoice::stopNote`): `stopNote` with `allowTailOff = true` returns a
releasing voice unchanged, elapsed time included, also after any run of `renderNextBlock`
calls; and applying it twice to any voice is the same as applying it once. -/
theorem stopNote_with_tailOff_leaves_releasing_voice (m : MathLib R) (v : FMVoice R)
    (hrel : v.isReleasing) (calls : List (Nat × Int × FMParams R)) (buf : AudioBuffer R) :
    v.stopNote true = v ∧
    (FMVoice.renderCalls m calls v buf).1.stopNote true = (FMVoice.renderCalls m calls v buf).1 ∧
    ∀ w : FMVoice R, (w.stopNote true).stopNote true = w.stopNote true := by
  have hne : v.tailOff ≠ 0 := ne_of_gt hrel.2
  have hne2 : (FMVoice.renderCalls m calls v buf).1.tailOff ≠ 0 := by
    rw [renderCalls_tailOff]; exact hne
  refine ⟨by simp [FMVoice.stopNote, hne], by simp [FMVoice.stopNote, hne2], fun w => ?_⟩
  by_cases h0 : w.tailOff = 0
  · simp [FMVoice.stopNote, h0]
  · simp [FMVoice.stopNote, h0]

/-- Witness for C29: at 44100 Hz the voice after `startNote (69, 1)` and `stopNote` with
tail-off, then 100 rendered samples. -/
theorem stopNote_with_tailOff_leaves_releasing_voice_witness :
    (((FMVoice.new (44100 : ℝ)).startNote ⟨Real.sin, fun x => (2 : ℝ) ^ x, Real.pi⟩ 69
      1).stopNote true).isReleasing ∧
    (FMVoice.renderCalls ⟨Real.sin, fun x => (2 : ℝ) ^ x, Real.pi⟩
      [(0, 100, FMParams.default)]
      (((FMVoice.new (44100 : ℝ)).startNote ⟨Real.sin, fun x => (2 : ℝ) ^ x, Real.pi⟩ 69
        1).stopNote true) (AudioBuffer.zeros 2 512)).1.stopNote true =
      (FMVoice.renderCalls ⟨Real.sin, fun x => (2 : ℝ) ^ x, Real.pi⟩
        [(0, 100, FMParams.default)]
        (((FMVoice.new (44100 : ℝ)).startNote ⟨Real.sin, fun x => (2 : ℝ) ^ x, Real.pi⟩ 69
          1).stopNote true) (AudioBuffer.zeros 2 512)).1 :=
  have h : (((FMVoice.new (44100 : ℝ)).startNote ⟨Real.sin, fun x => (2 : ℝ) ^ x, Real.pi⟩
      69 1).stopNote true).isReleasing := by
    simp [FMVoice.isReleasing, FMVoice.stopNote, FMVoice.startNote, getMidiNoteInHertz,
      FMVoice.new, Real.pi_ne_zero]
  ⟨h, (stopNote_with_tailOff_leaves_releasing_voice ⟨Real.sin, fun x => (2 : ℝ) ^ x, Real.pi⟩
    _ h [(0, 100, FMParams.default)] (AudioBuffer.zeros 2 512)).2.1⟩

/-! ### hw4 against hw3 -/

/-- C30 (hw3 and hw4 `FMSynthesizer::renderVoices`): for synthesizers of hw3 and hw4 with
the same voices and the same FM parameters, and the hw4 effect type None, `renderVoices`
returns the same buffer and the same voices in hw4 as in hw3, for every buffer, start
position and sample count. -/
theorem hw4_renderVoices_none_equals_hw3 (m : MathLib R) (s3 : HW3.FMSynthesizer R)
    (s4 : HW4.FMSynthesizer R) (hv : s3.voices = s4.voices)
    (hp : s3.toFMParams = s4.toFMParams) (hFX : s4.FXType = "None") (buffer : AudioBuffer R)
    (startSample : Nat) (numSamples : Int) :
    (s4.renderVoices m buffer startSample numSamples).2 =
        (s3.renderVoices m buffer startSample numSamples).2 ∧
      (s4.renderVoices m buffer startSample numSamples).1.voices =
        (s3.renderVoices m buffer startSample numSamples).1.voices := by
  simp [HW4.FMSynthesizer.renderVoices, HW3.FMSynthesizer.renderVoices, hFX, hv, hp]

/-- Witness for C30: the freshly constructed synthesizers of hw3 and hw4 at 44100 Hz. -/
theorem hw4_renderVoices_none_equals_hw3_witness :
    (HW3.FMSynthesizer.new (44100 : ℝ)).voices =
      (HW4.FMSynthesizer.new ⟨Real.sin, fun x => (2 : ℝ) ^ x, Real.pi⟩ (44100 : ℝ)).voices ∧
    (HW3.FMSynthesizer.new (44100 : ℝ)).toFMParams =
      (HW4.FMSynthesizer.new ⟨Real.sin, fun x => (2 : ℝ) ^ x, Real.pi⟩
        (44100 : ℝ)).toFMParams ∧
    (HW4.FMSynthesizer.new ⟨Real.sin, fun x => (2 : ℝ) ^ x, Real.pi⟩
      (44100 : ℝ)).FXType = "None" ∧
    ((HW4.FMSynthesizer.new ⟨Real.sin, fun x => (2 : ℝ) ^ x, Real.pi⟩
      (44100 : ℝ)).renderVoices ⟨Real.sin, fun x => (2 : ℝ) ^ x, Real.pi⟩
        (AudioBuffer.zeros 2 512) 0 512).2 =
      ((HW3.FMSynthesizer.new (44100 : ℝ)).renderVoices
        ⟨Real.sin, fun x => (2 : ℝ) ^ x, Real.pi⟩ (AudioBuffer.zeros 2 512) 0 512).2 :=
  ⟨rfl, rfl, rfl, (hw4_renderVoices_none_equals_hw3 ⟨Real.sin, fun x => (2 : ℝ) ^ x, Real.pi⟩
    (HW3.FMSynthesizer.new 44100)
    (HW4.FMSynthesizer.new ⟨Real.sin, fun x => (2 : ℝ) ^ x, Real.pi⟩ 44100) rfl rfl rfl
    (AudioBuffer.zeros 2 512) 0 512).1⟩
